import Mathlib

/-!
Verification of the relative-binning likelihood core
(`bilby/gw/likelihood/relative.py`, class
`RelativeBinningGravitationalWaveTransient`).

The numeric arrays of the source are embedded as Lean lists: real-valued
numpy arrays become `List ℚ` and complex-valued ones become `List CQ`,
where `CQ` is an executable complex-number type with rational components
(exact arithmetic standing in for the floating point of the source; the
algebraic identities proved here are exact, so they hold for any exact
field of scalars).  Fallible numpy operations (indexing an empty `where`
result, Python integer division by zero, negative array dimensions)
become `Except String` results carrying the exception the interpreter
would raise.
-/

/-- Complex numbers with rational real and imaginary part: the executable
model of a numpy complex scalar. -/
@[ext]
structure CQ where
  re : ℚ
  im : ℚ
  deriving DecidableEq

namespace CQ

instance : Zero CQ := ⟨⟨0, 0⟩⟩
instance : One CQ := ⟨⟨1, 0⟩⟩
instance : Add CQ := ⟨fun z w => ⟨z.re + w.re, z.im + w.im⟩⟩
instance : Neg CQ := ⟨fun z => ⟨-z.re, -z.im⟩⟩
instance : Sub CQ := ⟨fun z w => ⟨z.re - w.re, z.im - w.im⟩⟩
instance : Mul CQ := ⟨fun z w => ⟨z.re * w.re - z.im * w.im, z.re * w.im + z.im * w.re⟩⟩

@[simp] theorem zero_re : (0 : CQ).re = 0 := rfl
@[simp] theorem zero_im : (0 : CQ).im = 0 := rfl
@[simp] theorem one_re : (1 : CQ).re = 1 := rfl
@[simp] theorem one_im : (1 : CQ).im = 0 := rfl
@[simp] theorem add_re (z w : CQ) : (z + w).re = z.re + w.re := rfl
@[simp] theorem add_im (z w : CQ) : (z + w).im = z.im + w.im := rfl
@[simp] theorem neg_re (z : CQ) : (-z).re = -z.re := rfl
@[simp] theorem neg_im (z : CQ) : (-z).im = -z.im := rfl
@[simp] theorem sub_re (z w : CQ) : (z - w).re = z.re - w.re := rfl
@[simp] theorem sub_im (z w : CQ) : (z - w).im = z.im - w.im := rfl
@[simp] theorem mul_re (z w : CQ) : (z * w).re = z.re * w.re - z.im * w.im := rfl
@[simp] theorem mul_im (z w : CQ) : (z * w).im = z.re * w.im + z.im * w.re := rfl

instance : CommRing CQ where
  add_assoc a b c := by ext <;> simp <;> ring
  zero_add a := by ext <;> simp
  add_zero a := by ext <;> simp
  add_comm a b := by ext <;> simp <;> ring
  left_distrib a b c := by ext <;> simp <;> ring
  right_distrib a b c := by ext <;> simp <;> ring
  zero_mul a := by ext <;> simp
  mul_zero a := by ext <;> simp
  mul_assoc a b c := by ext <;> simp <;> ring
  one_mul a := by ext <;> simp
  mul_one a := by ext <;> simp
  mul_comm a b := by ext <;> simp <;> ring
  neg_add_cancel a := by ext <;> simp
  sub_eq_add_neg a b := by ext <;> simp <;> ring
  nsmul := nsmulRec
  zsmul := zsmulRec

/-- Complex conjugate (`np.conjugate`). -/
def conj (z : CQ) : CQ := ⟨z.re, -z.im⟩

/-- Squared modulus (`np.abs(z) ** 2`), a rational scalar. -/
def normSq (z : CQ) : ℚ := z.re * z.re + z.im * z.im

/-- Embedding of a real (rational) scalar as a complex value. -/
def ofQ (q : ℚ) : CQ := ⟨q, 0⟩

@[simp] theorem conj_re (z : CQ) : (conj z).re = z.re := rfl
@[simp] theorem conj_im (z : CQ) : (conj z).im = -z.im := rfl
@[simp] theorem ofQ_re (q : ℚ) : (ofQ q).re = q := rfl
@[simp] theorem ofQ_im (q : ℚ) : (ofQ q).im = 0 := rfl

instance : Inv CQ := ⟨fun z => ⟨z.re / normSq z, -z.im / normSq z⟩⟩
instance : Div CQ := ⟨fun z w => z * w⁻¹⟩

theorem inv_def (z : CQ) : z⁻¹ = ⟨z.re / normSq z, -z.im / normSq z⟩ := rfl
theorem div_def (z w : CQ) : z / w = z * w⁻¹ := rfl

@[simp] theorem inv_re (z : CQ) : (z⁻¹).re = z.re / normSq z := rfl
@[simp] theorem inv_im (z : CQ) : (z⁻¹).im = -z.im / normSq z := rfl

@[simp] theorem conj_zero : conj 0 = 0 := by ext <;> simp [conj]
@[simp] theorem conj_one : conj 1 = 1 := by ext <;> simp [conj]

theorem normSq_eq_zero_iff (z : CQ) : normSq z = 0 ↔ z = 0 := by
  constructor
  · intro h
    simp only [normSq] at h
    have hre : z.re = 0 := by nlinarith [mul_self_nonneg z.re, mul_self_nonneg z.im]
    have him : z.im = 0 := by nlinarith [mul_self_nonneg z.re, mul_self_nonneg z.im]
    ext <;> simp [hre, him]
  · intro h; subst h; simp [normSq]

@[simp] theorem zero_div (z : CQ) : (0 : CQ) / z = 0 := by
  ext <;> simp [div_def]

@[simp] theorem div_zero (z : CQ) : z / (0 : CQ) = 0 := by
  ext <;> simp [div_def, inv_def, normSq]

theorem div_self_of_ne {z : CQ} (h : z ≠ 0) : z / z = 1 := by
  have hns : normSq z ≠ 0 := fun hc => h ((normSq_eq_zero_iff z).mp hc)
  ext
  · show z.re * (z.re / normSq z) - z.im * (-z.im / normSq z) = 1
    have hrw : z.re * (z.re / normSq z) - z.im * (-z.im / normSq z)
        = (z.re * z.re + z.im * z.im) / normSq z := by ring
    rw [hrw, show z.re * z.re + z.im * z.im = normSq z from rfl, div_self hns]
  · show z.re * (-z.im / normSq z) + z.im * (z.re / normSq z) = 0
    ring

theorem ofQ_add (a b : ℚ) : ofQ (a + b) = ofQ a + ofQ b := by ext <;> simp

theorem ofQ_mul (a b : ℚ) : ofQ (a * b) = ofQ a * ofQ b := by ext <;> simp

@[simp] theorem ofQ_zero : ofQ 0 = 0 := rfl

@[simp] theorem ofQ_one : ofQ 1 = 1 := rfl

theorem ofQ_ne_zero {q : ℚ} (h : q ≠ 0) : ofQ q ≠ 0 := by
  intro hc
  exact h (congrArg CQ.re hc)

theorem add_self_div_ofQ_two (z : CQ) : (z + z) / ofQ 2 = z := by
  have h2 : (ofQ 2 : CQ) ≠ 0 := ofQ_ne_zero (by norm_num)
  have hz : z + z = z * ofQ 2 := by ext <;> simp <;> ring
  rw [hz, div_def, mul_assoc, ← div_def, div_self_of_ne h2, mul_one]

end CQ

/-! ### List helpers

Bridging lemmas between the list-level operations used by the embedding
(`List.zipWith`, `List.map`, slices) and indexed `Finset.range` sums used
to state the claims mathematically. -/

section ListHelpers

variable {α β γ : Type} {M : Type} [AddCommMonoid M]

/-- A list sum as a sum over indices. -/
theorem list_sum_eq_sum_range (l : List M) :
    l.sum = ∑ i in Finset.range l.length, l.getD i 0 := by
  induction l with
  | nil => simp
  | cons a l ih =>
      rw [List.sum_cons, List.length_cons, Finset.sum_range_succ', ih]
      simp [add_comm]

theorem getD_map_of_lt (f : α → β) (l : List α) (i : ℕ) (hi : i < l.length) (d : β) (d' : α) :
    (l.map f).getD i d = f (l.getD i d') := by
  induction l generalizing i with
  | nil => simp at hi
  | cons a l ih =>
      cases i with
      | zero => simp
      | succ i => simpa using ih i (by simpa using hi)

theorem getD_zipWith_of_lt (f : α → β → γ) (as : List α) (bs : List β) (i : ℕ)
    (ha : i < as.length) (hb : i < bs.length) (d : γ) (da : α) (db : β) :
    (List.zipWith f as bs).getD i d = f (as.getD i da) (bs.getD i db) := by
  induction as generalizing bs i with
  | nil => simp at ha
  | cons a as ih =>
      cases bs with
      | nil => simp at hb
      | cons b bs =>
          cases i with
          | zero => simp
          | succ i => simpa using ih bs i (by simpa using ha) (by simpa using hb)

theorem getD_drop (l : List α) (j k : ℕ) (d : α) :
    (l.drop j).getD k d = l.getD (j + k) d := by
  induction l generalizing j with
  | nil => simp
  | cons a l ih =>
      cases j with
      | zero => simp
      | succ j => simp [Nat.succ_add, ih j]

theorem getD_take_of_lt (l : List α) (n k : ℕ) (hk : k < n) (d : α) :
    (l.take n).getD k d = l.getD k d := by
  induction l generalizing n k with
  | nil => simp
  | cons a l ih =>
      cases n with
      | zero => omega
      | succ n =>
          cases k with
          | zero => simp
          | succ k => simpa using ih n k (by omega)

theorem getD_drop_one (l : List α) (k : ℕ) (d : α) :
    (l.drop 1).getD k d = l.getD (1 + k) d := getD_drop l 1 k d

theorem getD_dropLast_of_lt (l : List α) (k : ℕ) (hk : k + 1 < l.length) (d : α) :
    l.dropLast.getD k d = l.getD k d := by
  induction l generalizing k with
  | nil => simp at hk
  | cons a l ih =>
      cases l with
      | nil => simp at hk
      | cons b l =>
          cases k with
          | zero => simp [List.dropLast]
          | succ k =>
              have := ih k (by simpa using hk)
              simpa [List.dropLast] using this

/-- First index satisfying a predicate: the embedding of
`np.where(condition)[0][0]` (which raises `IndexError` when no index
satisfies the condition, modelled by `none`). -/
def firstIdx (p : α → Bool) : List α → Option ℕ
  | [] => none
  | a :: l => if p a then some 0 else (firstIdx p l).map (· + 1)

theorem firstIdx_spec (p : α → Bool) (l : List α) (j : ℕ) (d : α)
    (h : firstIdx p l = some j) :
    j < l.length ∧ p (l.getD j d) = true ∧ ∀ k < j, p (l.getD k d) = false := by
  induction l generalizing j with
  | nil => simp [firstIdx] at h
  | cons a l ih =>
      by_cases hpa : p a
      · simp [firstIdx, hpa] at h
        subst h
        exact ⟨by simp, by simpa using hpa, by omega⟩
      · simp [firstIdx, hpa] at h
        obtain ⟨j', hj', rfl⟩ := h
        obtain ⟨h1, h2, h3⟩ := ih j' hj'
        refine ⟨by simpa using h1, by simpa using h2, ?_⟩
        intro k hk
        cases k with
        | zero => simpa using hpa
        | succ k => simpa using h3 k (by omega)

theorem firstIdx_eq_some_of (p : α → Bool) (l : List α) (j : ℕ) (d : α)
    (hj : j < l.length) (hp : p (l.getD j d) = true)
    (hmin : ∀ k < j, p (l.getD k d) = false) :
    firstIdx p l = some j := by
  induction l generalizing j with
  | nil => simp at hj
  | cons a l ih =>
      cases j with
      | zero =>
          simp only [List.getD_cons_zero] at hp
          simp [firstIdx, hp]
      | succ j =>
          have hpa : p a = false := by simpa using hmin 0 (Nat.succ_pos j)
          have : firstIdx p l = some j :=
            ih j (by simpa using hj) (by simpa using hp)
              (fun k hk => by simpa using hmin (k + 1) (by omega))
          simp [firstIdx, hpa, this]

theorem firstIdx_isSome_of (p : α → Bool) (l : List α) (j : ℕ) (d : α)
    (hj : j < l.length) (hp : p (l.getD j d) = true) :
    (firstIdx p l).isSome := by
  induction l generalizing j with
  | nil => simp at hj
  | cons a l ih =>
      by_cases hpa : p a
      · simp [firstIdx, hpa]
      · cases j with
        | zero => simp only [List.getD_cons_zero] at hp; exact absurd hp (by simpa using hpa)
        | succ j =>
            have := ih j (by simpa using hj) (by simpa using hp)
            simp only [firstIdx, hpa, if_false, Bool.false_eq_true]
            simpa [Option.isSome_map] using this

end ListHelpers

/-! ### WaveformRatioReconstructor and LikelihoodEvaluator

Embedding of `compute_waveform_ratio_per_interferometer` (relative.py
lines 310-323) and `calculate_snrs` (lines 353-365).

The detector-response collaborator
`interferometer.get_detector_response(..., frequencies=...)` is modelled
as a function `response : ℚ → CQ` from frequency to the projected strain;
the source evaluates it at the bin-edge frequencies only
(`frequencies=self.bin_freqs[name]`), which the embedding renders as
`bin_freqs.map response`.  `self.per_detector_fiducial_waveform_points`
is passed in as `reference_strain`.  The numpy complex power `** 0.5`
(a principal square root, which leaves the rationals) is abstracted as a
function `csqrt`; nothing proved about the other fields depends on it. -/

/-- Lines 312-318: `strain = interferometer.get_detector_response(...,
frequencies=self.bin_freqs[name])` followed by
`waveform_ratio = strain / reference_strain` (elementwise complex
division at the bin edges). -/
def waveform_quot_edges (response : ℚ → CQ) (bin_freqs : List ℚ)
    (reference_strain : List CQ) : List CQ :=
  List.zipWith (fun s h => s / h) (bin_freqs.map response) reference_strain

/-- Line 320: `r0 = (waveform_ratio[1:] + waveform_ratio[:-1]) / 2`. -/
def cwr_r0 (response : ℚ → CQ) (bin_freqs : List ℚ) (reference_strain : List CQ) : List CQ :=
  let wr := waveform_quot_edges response bin_freqs reference_strain
  List.zipWith (fun x y => (x + y) / CQ.ofQ 2) (wr.drop 1) wr.dropLast

/-- Line 321: `r1 = (waveform_ratio[1:] - waveform_ratio[:-1]) / self.bin_widths[name]`. -/
def cwr_r1 (response : ℚ → CQ) (bin_freqs : List ℚ) (reference_strain : List CQ)
    (bin_widths : List ℚ) : List CQ :=
  let wr := waveform_quot_edges response bin_freqs reference_strain
  List.zipWith (fun d w => d / CQ.ofQ w)
    (List.zipWith (fun x y => x - y) (wr.drop 1) wr.dropLast) bin_widths

def compute_waveform_ratio_per_interferometer (response : ℚ → CQ) (bin_freqs : List ℚ)
    (reference_strain : List CQ) (bin_widths : List ℚ) : List CQ × List CQ :=
  (cwr_r0 response bin_freqs reference_strain,
   cwr_r1 response bin_freqs reference_strain bin_widths)

/-- `np.sum(a0 * np.conjugate(r0) + a1 * np.conjugate(r1))` (line 362). -/
def calculate_snrs_d_inner_h (a0 a1 r0 r1 : List CQ) : CQ :=
  (List.zipWith (fun x y => x + y)
    (List.zipWith (fun a r => a * CQ.conj r) a0 r0)
    (List.zipWith (fun a r => a * CQ.conj r) a1 r1)).sum

/-- `np.sum(b0 * np.abs(r0) ** 2 + 2 * b1 * np.real(r0 * np.conjugate(r1)))`
(line 363). -/
def calculate_snrs_h_inner_h (b0 b1 r0 r1 : List CQ) : CQ :=
  (List.zipWith (fun x y => x + y)
    (List.zipWith (fun b r => b * CQ.ofQ (CQ.normSq r)) b0 r0)
    (List.zipWith (fun b x => CQ.ofQ 2 * b * CQ.ofQ x) b1
      (List.zipWith (fun x y => (x * CQ.conj y).re) r0 r1))).sum

/-- The fields of `self._CalculatedSNRs` populated by `calculate_snrs`
that the claims are about. -/
structure CalculatedSNRs where
  d_inner_h : CQ
  optimal_snr_squared : CQ
  complex_matched_filter_snr : CQ
  deriving DecidableEq

/-- Lines 358-365 of `calculate_snrs`, given the summary data and the
already-computed linear pieces `r0`, `r1` of the waveform quotient. -/
def calculate_snrs_core (csqrt : CQ → CQ) (a0 a1 b0 b1 r0 r1 : List CQ) : CalculatedSNRs :=
  { d_inner_h := calculate_snrs_d_inner_h a0 a1 r0 r1
    optimal_snr_squared := calculate_snrs_h_inner_h b0 b1 r0 r1
    complex_matched_filter_snr :=
      calculate_snrs_d_inner_h a0 a1 r0 r1
        / csqrt (calculate_snrs_h_inner_h b0 b1 r0 r1) }

/-- Full `calculate_snrs` (lines 353-365): computes the waveform quotient
pieces for the detector, then the SNR quantities. -/
def calculate_snrs (csqrt : CQ → CQ) (response : ℚ → CQ) (bin_freqs : List ℚ)
    (reference_strain : List CQ) (bin_widths : List ℚ)
    (a0 a1 b0 b1 : List CQ) : CalculatedSNRs :=
  let wr := compute_waveform_ratio_per_interferometer response bin_freqs reference_strain bin_widths
  calculate_snrs_core csqrt a0 a1 b0 b1 wr.1 wr.2

section SumZipWith

variable {α β : Type} {M : Type} [AddCommMonoid M]

theorem sum_zipWith_eq_sum_range (f : α → β → M) (A : List α) (B : List β) (n : ℕ)
    (hA : A.length = n) (hB : B.length = n) (da : α) (db : β) :
    (List.zipWith f A B).sum = ∑ i in Finset.range n, f (A.getD i da) (B.getD i db) := by
  have hlen : (List.zipWith f A B).length = n := by
    rw [List.length_zipWith, hA, hB, Nat.min_self]
  rw [list_sum_eq_sum_range, hlen]
  refine Finset.sum_congr rfl fun i hi => ?_
  have hi' : i < n := Finset.mem_range.mp hi
  exact getD_zipWith_of_lt f A B i (by omega) (by omega) 0 da db

end SumZipWith

/-- **C1.** For every detector, given summary data `(a0, a1, b0, b1)` and a
waveform quotient `(r0, r1)` (per-bin arrays of length `n`),
`calculate_snrs` returns `d_inner_h = Σ_i (a0_i·conj(r0_i) + a1_i·conj(r1_i))`,
`h_inner_h = Σ_i (b0_i·|r0_i|² + 2·b1_i·Re(r0_i·conj(r1_i)))`,
`optimal_snr_squared = h_inner_h`, and
`complex_matched_filter_snr = d_inner_h / sqrt(optimal_snr_squared)`,
where `csqrt` stands for the numpy principal square root `** 0.5`. -/
theorem C1_calculate_snrs_formulas (csqrt : CQ → CQ) (n : ℕ) (a0 a1 b0 b1 r0 r1 : List CQ)
    (ha0 : a0.length = n) (ha1 : a1.length = n) (hb0 : b0.length = n) (hb1 : b1.length = n)
    (hr0 : r0.length = n) (hr1 : r1.length = n) :
    (calculate_snrs_core csqrt a0 a1 b0 b1 r0 r1).d_inner_h
        = ∑ i in Finset.range n,
            (a0.getD i 0 * CQ.conj (r0.getD i 0) + a1.getD i 0 * CQ.conj (r1.getD i 0)) ∧
    (calculate_snrs_core csqrt a0 a1 b0 b1 r0 r1).optimal_snr_squared
        = ∑ i in Finset.range n,
            (b0.getD i 0 * CQ.ofQ (CQ.normSq (r0.getD i 0))
              + CQ.ofQ 2 * b1.getD i 0 * CQ.ofQ ((r0.getD i 0 * CQ.conj (r1.getD i 0)).re)) ∧
    (calculate_snrs_core csqrt a0 a1 b0 b1 r0 r1).optimal_snr_squared
        = calculate_snrs_h_inner_h b0 b1 r0 r1 ∧
    (calculate_snrs_core csqrt a0 a1 b0 b1 r0 r1).complex_matched_filter_snr
        = (calculate_snrs_core csqrt a0 a1 b0 b1 r0 r1).d_inner_h
            / csqrt ((calculate_snrs_core csqrt a0 a1 b0 b1 r0 r1).optimal_snr_squared) := by
  refine ⟨?_, ?_, rfl, rfl⟩
  · show calculate_snrs_d_inner_h a0 a1 r0 r1 = _
    unfold calculate_snrs_d_inner_h
    rw [sum_zipWith_eq_sum_range (fun x y => x + y)
          (List.zipWith (fun a r => a * CQ.conj r) a0 r0)
          (List.zipWith (fun a r => a * CQ.conj r) a1 r1) n
          (by rw [List.length_zipWith, ha0, hr0, Nat.min_self])
          (by rw [List.length_zipWith, ha1, hr1, Nat.min_self]) 0 0]
    refine Finset.sum_congr rfl fun i hi => ?_
    have hi' := Finset.mem_range.mp hi
    rw [getD_zipWith_of_lt (fun a r => a * CQ.conj r) a0 r0 i (by omega) (by omega) 0 0 0,
        getD_zipWith_of_lt (fun a r => a * CQ.conj r) a1 r1 i (by omega) (by omega) 0 0 0]
  · show calculate_snrs_h_inner_h b0 b1 r0 r1 = _
    unfold calculate_snrs_h_inner_h
    have hW : (List.zipWith (fun x y => (x * CQ.conj y).re) r0 r1).length = n := by
      rw [List.length_zipWith, hr0, hr1, Nat.min_self]
    rw [sum_zipWith_eq_sum_range (fun x y => x + y)
          (List.zipWith (fun b r => b * CQ.ofQ (CQ.normSq r)) b0 r0)
          (List.zipWith (fun b x => CQ.ofQ 2 * b * CQ.ofQ x) b1
            (List.zipWith (fun x y => (x * CQ.conj y).re) r0 r1)) n
          (by rw [List.length_zipWith, hb0, hr0, Nat.min_self])
          (by rw [List.length_zipWith, hb1, hW, Nat.min_self]) 0 0]
    refine Finset.sum_congr rfl fun i hi => ?_
    have hi' := Finset.mem_range.mp hi
    rw [getD_zipWith_of_lt (fun b r => b * CQ.ofQ (CQ.normSq r)) b0 r0 i
          (by omega) (by omega) 0 0 0,
        getD_zipWith_of_lt (fun b x => CQ.ofQ 2 * b * CQ.ofQ x) b1
          (List.zipWith (fun x y => (x * CQ.conj y).re) r0 r1) i
          (by omega) (by omega) 0 0 0,
        getD_zipWith_of_lt (fun x y => (x * CQ.conj y).re) r0 r1 i
          (by omega) (by omega) 0 0 0]

theorem C1_calculate_snrs_formulas_witness :
    (calculate_snrs_core (fun z => z) [⟨1, 2⟩] [⟨0, 1⟩] [⟨2, 0⟩] [⟨1, 1⟩]
        [⟨1, 1⟩] [⟨2, 1⟩]).d_inner_h
      = ∑ i in Finset.range 1,
          (([⟨1, 2⟩] : List CQ).getD i 0 * CQ.conj (([⟨1, 1⟩] : List CQ).getD i 0)
            + ([⟨0, 1⟩] : List CQ).getD i 0 * CQ.conj (([⟨2, 1⟩] : List CQ).getD i 0)) ∧
    (calculate_snrs_core (fun z => z) [⟨1, 2⟩] [⟨0, 1⟩] [⟨2, 0⟩] [⟨1, 1⟩]
        [⟨1, 1⟩] [⟨2, 1⟩]).optimal_snr_squared
      = ∑ i in Finset.range 1,
          (([⟨2, 0⟩] : List CQ).getD i 0 * CQ.ofQ (CQ.normSq (([⟨1, 1⟩] : List CQ).getD i 0))
            + CQ.ofQ 2 * ([⟨1, 1⟩] : List CQ).getD i 0
                * CQ.ofQ ((([⟨1, 1⟩] : List CQ).getD i 0
                    * CQ.conj (([⟨2, 1⟩] : List CQ).getD i 0)).re)) ∧
    (calculate_snrs_core (fun z => z) [⟨1, 2⟩] [⟨0, 1⟩] [⟨2, 0⟩] [⟨1, 1⟩]
        [⟨1, 1⟩] [⟨2, 1⟩]).optimal_snr_squared
      = calculate_snrs_h_inner_h [⟨2, 0⟩] [⟨1, 1⟩] [⟨1, 1⟩] [⟨2, 1⟩] ∧
    (calculate_snrs_core (fun z => z) [⟨1, 2⟩] [⟨0, 1⟩] [⟨2, 0⟩] [⟨1, 1⟩]
        [⟨1, 1⟩] [⟨2, 1⟩]).complex_matched_filter_snr
      = (calculate_snrs_core (fun z => z) [⟨1, 2⟩] [⟨0, 1⟩] [⟨2, 0⟩] [⟨1, 1⟩]
          [⟨1, 1⟩] [⟨2, 1⟩]).d_inner_h
          / (fun z => z) ((calculate_snrs_core (fun z => z) [⟨1, 2⟩] [⟨0, 1⟩] [⟨2, 0⟩]
              [⟨1, 1⟩] [⟨1, 1⟩] [⟨2, 1⟩]).optimal_snr_squared) :=
  C1_calculate_snrs_formulas (fun z => z) 1 [⟨1, 2⟩] [⟨0, 1⟩] [⟨2, 0⟩] [⟨1, 1⟩]
    [⟨1, 1⟩] [⟨2, 1⟩] rfl rfl rfl rfl rfl rfl

/-- **C2.** For every detector and candidate parameter set, the waveform
quotient computation evaluates the detector response only at the bin-edge
frequencies, divides elementwise by the fiducial waveform sampled at
those edges, and returns, for every bin `i`,
`r0[i] = (quot[i] + quot[i+1]) / 2` and
`r1[i] = (quot[i+1] - quot[i]) / bin_width[i]`. -/
theorem C2_waveform_quot_pointwise (response : ℚ → CQ) (bin_freqs : List ℚ)
    (reference_strain : List CQ) (bin_widths : List ℚ) (n i : ℕ)
    (hbf : bin_freqs.length = n + 1) (href : reference_strain.length = n + 1)
    (hw : bin_widths.length = n) (hi : i < n) :
    ((compute_waveform_ratio_per_interferometer response bin_freqs reference_strain
          bin_widths).1.getD i 0
        = (response (bin_freqs.getD i 0) / reference_strain.getD i 0
            + response (bin_freqs.getD (i + 1) 0) / reference_strain.getD (i + 1) 0)
            / CQ.ofQ 2) ∧
    ((compute_waveform_ratio_per_interferometer response bin_freqs reference_strain
          bin_widths).2.getD i 0
        = (response (bin_freqs.getD (i + 1) 0) / reference_strain.getD (i + 1) 0
            - response (bin_freqs.getD i 0) / reference_strain.getD i 0)
            / CQ.ofQ (bin_widths.getD i 0)) ∧
    (∀ response2 : ℚ → CQ, (∀ f ∈ bin_freqs, response2 f = response f) →
        compute_waveform_ratio_per_interferometer response2 bin_freqs reference_strain
            bin_widths
          = compute_waveform_ratio_per_interferometer response bin_freqs reference_strain
              bin_widths) := by
  have hwq : (waveform_quot_edges response bin_freqs reference_strain).length = n + 1 := by
    unfold waveform_quot_edges
    rw [List.length_zipWith, List.length_map, hbf, href, Nat.min_self]
  have hquot : ∀ k, k < n + 1 →
      (waveform_quot_edges response bin_freqs reference_strain).getD k 0
        = response (bin_freqs.getD k 0) / reference_strain.getD k 0 := by
    intro k hk
    unfold waveform_quot_edges
    rw [getD_zipWith_of_lt (fun s h => s / h) _ _ k
          (by rw [List.length_map, hbf]; omega) (by omega) 0 0 0,
        getD_map_of_lt response bin_freqs k (by omega) 0 0]
  refine ⟨?_, ?_, ?_⟩
  · show (cwr_r0 response bin_freqs reference_strain).getD i 0 = _
    simp only [cwr_r0]
    rw [getD_zipWith_of_lt (fun x y => (x + y) / CQ.ofQ 2) _ _ i
          (by rw [List.length_drop, hwq]; omega)
          (by rw [List.length_dropLast, hwq]; omega) 0 0 0,
        getD_drop_one, getD_dropLast_of_lt _ _ (by omega),
        show 1 + i = i + 1 from Nat.add_comm 1 i,
        hquot i (by omega), hquot (i + 1) (by omega), add_comm]
  · show (cwr_r1 response bin_freqs reference_strain bin_widths).getD i 0 = _
    simp only [cwr_r1]
    rw [getD_zipWith_of_lt (fun d w => d / CQ.ofQ w) _ _ i
          (by rw [List.length_zipWith, List.length_drop, List.length_dropLast, hwq]
              omega)
          (by omega) 0 0 0,
        getD_zipWith_of_lt (fun x y => x - y) _ _ i
          (by rw [List.length_drop, hwq]; omega)
          (by rw [List.length_dropLast, hwq]; omega) 0 0 0,
        getD_drop_one, getD_dropLast_of_lt _ _ (by omega),
        show 1 + i = i + 1 from Nat.add_comm 1 i,
        hquot i (by omega), hquot (i + 1) (by omega)]
  · intro response2 h
    unfold compute_waveform_ratio_per_interferometer cwr_r0 cwr_r1 waveform_quot_edges
    rw [List.map_congr_left h]

theorem C2_waveform_quot_pointwise_witness :
    ((compute_waveform_ratio_per_interferometer (fun q => ⟨q, 1⟩) [1, 2]
          [⟨1, 0⟩, ⟨2, 0⟩] [1]).1.getD 0 0
        = ((fun q => (⟨q, 1⟩ : CQ)) (([1, 2] : List ℚ).getD 0 0)
              / ([⟨1, 0⟩, ⟨2, 0⟩] : List CQ).getD 0 0
            + (fun q => (⟨q, 1⟩ : CQ)) (([1, 2] : List ℚ).getD 1 0)
              / ([⟨1, 0⟩, ⟨2, 0⟩] : List CQ).getD 1 0) / CQ.ofQ 2) ∧
    ((compute_waveform_ratio_per_interferometer (fun q => ⟨q, 1⟩) [1, 2]
          [⟨1, 0⟩, ⟨2, 0⟩] [1]).2.getD 0 0
        = ((fun q => (⟨q, 1⟩ : CQ)) (([1, 2] : List ℚ).getD 1 0)
              / ([⟨1, 0⟩, ⟨2, 0⟩] : List CQ).getD 1 0
            - (fun q => (⟨q, 1⟩ : CQ)) (([1, 2] : List ℚ).getD 0 0)
              / ([⟨1, 0⟩, ⟨2, 0⟩] : List CQ).getD 0 0) / CQ.ofQ (([1] : List ℚ).getD 0 0)) :=
  ⟨(C2_waveform_quot_pointwise (fun q => ⟨q, 1⟩) [1, 2] [⟨1, 0⟩, ⟨2, 0⟩] [1] 1 0
      rfl rfl rfl (by decide)).1,
   (C2_waveform_quot_pointwise (fun q => ⟨q, 1⟩) [1, 2] [⟨1, 0⟩, ⟨2, 0⟩] [1] 1 0
      rfl rfl rfl (by decide)).2.1⟩

/-- Membership of an in-range `getD` element. -/
theorem getD_mem_of_lt {α : Type} (l : List α) (k : ℕ) (h : k < l.length) (d : α) :
    l.getD k d ∈ l := by
  rw [List.getD_eq_getElem l d h]
  exact List.getElem_mem h

/-- The conjunction asserted by claim C6 at a given input: the waveform
quotient pieces equal `(1, 0)` on every bin, `d_inner_h` collapses to
`Σ a0`, `h_inner_h` collapses to `Σ b0`, and the matched-filter SNR
`d_inner_h / sqrt(h_inner_h)` equals `sqrt(h_inner_h)` itself (stated for
the principal square root `s` of `h_inner_h`, characterised by
`s · s = h_inner_h` with `Re s > 0`, or `Re s = 0 ≤ Im s`). -/
def fiducial_point_claim (a0 a1 b0 b1 : List CQ) (response : ℚ → CQ) (bin_freqs : List ℚ)
    (reference_strain : List CQ) (bin_widths : List ℚ) (n : ℕ) : Prop :=
  let wr := compute_waveform_ratio_per_interferometer response bin_freqs reference_strain
    bin_widths
  (∀ i < n, wr.1.getD i 0 = 1) ∧
  (∀ i < n, wr.2.getD i 0 = 0) ∧
  calculate_snrs_d_inner_h a0 a1 wr.1 wr.2 = a0.sum ∧
  calculate_snrs_h_inner_h b0 b1 wr.1 wr.2 = b0.sum ∧
  (∀ s : CQ, s * s = calculate_snrs_h_inner_h b0 b1 wr.1 wr.2 →
    (0 < s.re ∨ (s.re = 0 ∧ 0 ≤ s.im)) →
    calculate_snrs_d_inner_h a0 a1 wr.1 wr.2 / s = s)

/-- **C6 is false as stated.** A one-bin detector whose candidate response
at the bin edges equals the fiducial edge values (first conjunct), with
summary data `a0 = [1]`, `a1 = [0]`, `b0 = [4]`, `b1 = [0]`: the quotient
pieces are `(1, 0)` and `d_inner_h = 1`, `h_inner_h = 4`, so the
matched-filter SNR is `1/2`, while `sqrt(h_inner_h) = 2`.  The final
conjunct of the claim fails. -/
theorem C6_counterexample :
    (([1, 2] : List ℚ).map (fun _ => (1 : CQ)) = ([1, 1] : List CQ)) ∧
    ¬ fiducial_point_claim [⟨1, 0⟩] [0] [⟨4, 0⟩] [0] (fun _ => 1) [1, 2] [1, 1] [1] 1 := by
  have hwr : compute_waveform_ratio_per_interferometer (fun _ => (1 : CQ)) [1, 2] [1, 1] [1]
      = ([1], [0]) := by
    norm_num [compute_waveform_ratio_per_interferometer, cwr_r0, cwr_r1,
      waveform_quot_edges, CQ.div_def, CQ.normSq, CQ.ext_iff]
  refine ⟨by decide, ?_⟩
  intro h
  simp only [fiducial_point_claim, hwr] at h
  have h5 := h.2.2.2.2 ⟨2, 0⟩
    (by norm_num [calculate_snrs_h_inner_h, CQ.normSq, CQ.conj, CQ.ofQ, CQ.ext_iff])
    (by norm_num)
  rw [show calculate_snrs_d_inner_h [⟨1, 0⟩] [0] [1] [0] = ⟨1, 0⟩ by
        norm_num [calculate_snrs_d_inner_h, CQ.conj, CQ.ext_iff]] at h5
  have : ((⟨1, 0⟩ : CQ) / ⟨2, 0⟩) = (⟨1 / 2, 0⟩ : CQ) := by
    norm_num [CQ.div_def, CQ.normSq, CQ.ext_iff]
  rw [this] at h5
  exact absurd h5 (by norm_num [CQ.ext_iff])

/-- **C6 (amended).** For every detector, if the candidate detector response
at the bin-edge frequencies equals the (nowhere-zero) fiducial waveform
sampled at those edges, then the waveform quotient is `r0[i] = 1` and
`r1[i] = 0` for every bin, and consequently `d_inner_h = Σ a0`,
`h_inner_h = Σ b0`, and the complex matched-filter SNR equals
`d_inner_h / sqrt(h_inner_h) = (Σ a0) / sqrt(Σ b0)` — not `sqrt(h_inner_h)`
itself unless additionally `Σ a0 = Σ b0`. -/
theorem C6_fiducial_self_consistency (csqrt : CQ → CQ) (n : ℕ) (a0 a1 b0 b1 : List CQ)
    (response : ℚ → CQ) (bin_freqs : List ℚ) (reference_strain : List CQ)
    (bin_widths : List ℚ)
    (ha0 : a0.length = n) (ha1 : a1.length = n) (hb0 : b0.length = n) (hb1 : b1.length = n)
    (hbf : bin_freqs.length = n + 1) (href : reference_strain.length = n + 1)
    (hw : bin_widths.length = n)
    (hmatch : bin_freqs.map response = reference_strain)
    (hnz : ∀ z ∈ reference_strain, z ≠ 0) :
    (∀ i < n, (compute_waveform_ratio_per_interferometer response bin_freqs
        reference_strain bin_widths).1.getD i 0 = 1) ∧
    (∀ i < n, (compute_waveform_ratio_per_interferometer response bin_freqs
        reference_strain bin_widths).2.getD i 0 = 0) ∧
    calculate_snrs_d_inner_h a0 a1
        (compute_waveform_ratio_per_interferometer response bin_freqs reference_strain
          bin_widths).1
        (compute_waveform_ratio_per_interferometer response bin_freqs reference_strain
          bin_widths).2 = a0.sum ∧
    calculate_snrs_h_inner_h b0 b1
        (compute_waveform_ratio_per_interferometer response bin_freqs reference_strain
          bin_widths).1
        (compute_waveform_ratio_per_interferometer response bin_freqs reference_strain
          bin_widths).2 = b0.sum ∧
    (calculate_snrs_core csqrt a0 a1 b0 b1
        (compute_waveform_ratio_per_interferometer response bin_freqs reference_strain
          bin_widths).1
        (compute_waveform_ratio_per_interferometer response bin_freqs reference_strain
          bin_widths).2).complex_matched_filter_snr
      = a0.sum / csqrt b0.sum := by
  simp only [compute_waveform_ratio_per_interferometer]
  have hwqlen : (waveform_quot_edges response bin_freqs reference_strain).length = n + 1 := by
    unfold waveform_quot_edges
    rw [List.length_zipWith, List.length_map, hbf, href, Nat.min_self]
  have hwq1 : ∀ k, k < n + 1 →
      (waveform_quot_edges response bin_freqs reference_strain).getD k 0 = 1 := by
    intro k hk
    unfold waveform_quot_edges
    rw [hmatch, getD_zipWith_of_lt (fun s h => s / h) _ _ k (by omega) (by omega) 0 0 0]
    exact CQ.div_self_of_ne (hnz _ (getD_mem_of_lt _ k (by omega) 0))
  have hlen0 : (cwr_r0 response bin_freqs reference_strain).length = n := by
    simp only [cwr_r0]
    rw [List.length_zipWith, List.length_drop, List.length_dropLast, hwqlen]
    simp
  have hlen1 : (cwr_r1 response bin_freqs reference_strain bin_widths).length = n := by
    simp only [cwr_r1]
    rw [List.length_zipWith, List.length_zipWith, List.length_drop, List.length_dropLast,
      hwqlen, hw]
    simp
  have hr0 : ∀ i < n, (cwr_r0 response bin_freqs reference_strain).getD i 0 = 1 := by
    intro i hi
    simp only [cwr_r0]
    rw [getD_zipWith_of_lt (fun x y => (x + y) / CQ.ofQ 2) _ _ i
          (by rw [List.length_drop, hwqlen]; omega)
          (by rw [List.length_dropLast, hwqlen]; omega) 0 0 0,
        getD_drop_one, getD_dropLast_of_lt _ _ (by rw [hwqlen]; omega),
        hwq1 (1 + i) (by omega), hwq1 i (by omega)]
    exact CQ.add_self_div_ofQ_two 1
  have hr1 : ∀ i < n,
      (cwr_r1 response bin_freqs reference_strain bin_widths).getD i 0 = 0 := by
    intro i hi
    simp only [cwr_r1]
    rw [getD_zipWith_of_lt (fun d w => d / CQ.ofQ w) _ _ i
          (by rw [List.length_zipWith, List.length_drop, List.length_dropLast, hwqlen,
                Nat.min_self]
              omega)
          (by omega) 0 0 0,
        getD_zipWith_of_lt (fun x y => x - y) _ _ i
          (by rw [List.length_drop, hwqlen]; omega)
          (by rw [List.length_dropLast, hwqlen]; omega) 0 0 0,
        getD_drop_one, getD_dropLast_of_lt _ _ (by rw [hwqlen]; omega),
        hwq1 (1 + i) (by omega), hwq1 i (by omega), sub_self]
    exact CQ.zero_div _
  have hd : calculate_snrs_d_inner_h a0 a1 (cwr_r0 response bin_freqs reference_strain)
      (cwr_r1 response bin_freqs reference_strain bin_widths) = a0.sum := by
    unfold calculate_snrs_d_inner_h
    rw [sum_zipWith_eq_sum_range (fun x y => x + y) _ _ n
          (by rw [List.length_zipWith, ha0, hlen0, Nat.min_self])
          (by rw [List.length_zipWith, ha1, hlen1, Nat.min_self]) 0 0,
        list_sum_eq_sum_range a0, ha0]
    refine Finset.sum_congr rfl fun i hi => ?_
    have hi' := Finset.mem_range.mp hi
    rw [getD_zipWith_of_lt (fun a r => a * CQ.conj r) a0 _ i (by omega)
          (by rw [hlen0]; omega) 0 0 0,
        getD_zipWith_of_lt (fun a r => a * CQ.conj r) a1 _ i (by omega)
          (by rw [hlen1]; omega) 0 0 0,
        hr0 i hi', hr1 i hi', CQ.conj_one, CQ.conj_zero, mul_one, mul_zero, add_zero]
  have hh : calculate_snrs_h_inner_h b0 b1 (cwr_r0 response bin_freqs reference_strain)
      (cwr_r1 response bin_freqs reference_strain bin_widths) = b0.sum := by
    unfold calculate_snrs_h_inner_h
    have hWlen : (List.zipWith (fun x y => (x * CQ.conj y).re)
        (cwr_r0 response bin_freqs reference_strain)
        (cwr_r1 response bin_freqs reference_strain bin_widths)).length = n := by
      rw [List.length_zipWith, hlen0, hlen1, Nat.min_self]
    rw [sum_zipWith_eq_sum_range (fun x y => x + y) _ _ n
          (by rw [List.length_zipWith, hb0, hlen0, Nat.min_self])
          (by rw [List.length_zipWith, hb1, hWlen, Nat.min_self]) 0 0,
        list_sum_eq_sum_range b0, hb0]
    refine Finset.sum_congr rfl fun i hi => ?_
    have hi' := Finset.mem_range.mp hi
    rw [getD_zipWith_of_lt (fun b r => b * CQ.ofQ (CQ.normSq r)) b0 _ i (by omega)
          (by rw [hlen0]; omega) 0 0 0,
        getD_zipWith_of_lt (fun b x => CQ.ofQ 2 * b * CQ.ofQ x) b1 _ i (by omega)
          (by rw [hWlen]; omega) 0 0 0,
        getD_zipWith_of_lt (fun x y => (x * CQ.conj y).re) _ _ i
          (by rw [hlen0]; omega) (by rw [hlen1]; omega) 0 0 0,
        hr0 i hi', hr1 i hi']
    norm_num [CQ.normSq]
  exact ⟨hr0, hr1, hd, hh, by
    show calculate_snrs_d_inner_h a0 a1 _ _ / csqrt (calculate_snrs_h_inner_h b0 b1 _ _) = _
    rw [hd, hh]⟩

theorem C6_fiducial_self_consistency_witness :
    (∀ i < 1, (compute_waveform_ratio_per_interferometer (fun _ => (1 : CQ)) [1, 2]
        [1, 1] [1]).1.getD i 0 = 1) ∧
    (∀ i < 1, (compute_waveform_ratio_per_interferometer (fun _ => (1 : CQ)) [1, 2]
        [1, 1] [1]).2.getD i 0 = 0) ∧
    calculate_snrs_d_inner_h [⟨1, 0⟩] [0]
        (compute_waveform_ratio_per_interferometer (fun _ => (1 : CQ)) [1, 2] [1, 1] [1]).1
        (compute_waveform_ratio_per_interferometer (fun _ => (1 : CQ)) [1, 2] [1, 1] [1]).2
      = ([⟨1, 0⟩] : List CQ).sum ∧
    calculate_snrs_h_inner_h [⟨4, 0⟩] [0]
        (compute_waveform_ratio_per_interferometer (fun _ => (1 : CQ)) [1, 2] [1, 1] [1]).1
        (compute_waveform_ratio_per_interferometer (fun _ => (1 : CQ)) [1, 2] [1, 1] [1]).2
      = ([⟨4, 0⟩] : List CQ).sum ∧
    (calculate_snrs_core (fun _ => ⟨2, 0⟩) [⟨1, 0⟩] [0] [⟨4, 0⟩] [0]
        (compute_waveform_ratio_per_interferometer (fun _ => (1 : CQ)) [1, 2] [1, 1] [1]).1
        (compute_waveform_ratio_per_interferometer (fun _ => (1 : CQ)) [1, 2] [1, 1]
          [1]).2).complex_matched_filter_snr
      = ([⟨1, 0⟩] : List CQ).sum / (fun _ => (⟨2, 0⟩ : CQ)) (([⟨4, 0⟩] : List CQ).sum) :=
  C6_fiducial_self_consistency (fun _ => ⟨2, 0⟩) 1 [⟨1, 0⟩] [0] [⟨4, 0⟩] [0]
    (fun _ => 1) [1, 2] [1, 1] [1] rfl rfl rfl rfl rfl rfl rfl (by decide) (by decide)

/-! ### More list helpers (head / last access) -/

section ListHelpers2

variable {α β : Type}

theorem headD_eq_getD (l : List α) (d : α) : l.headD d = l.getD 0 d := by
  cases l <;> rfl

theorem getLastD_eq_getD_of_ne (l : List α) (d : α) (h : l ≠ []) :
    l.getLastD d = l.getD (l.length - 1) d := by
  induction l generalizing d with
  | nil => simp at h
  | cons a l ih =>
      cases l with
      | nil => rfl
      | cons b l =>
          rw [List.getLastD_cons, ih a (by simp),
            List.getD_eq_getElem _ a (by simp),
            List.getD_eq_getElem _ d (by simp)]
          simp

theorem headD_map (f : α → β) (l : List α) (d : β) (d' : α) (h : l ≠ []) :
    (l.map f).headD d = f (l.headD d') := by
  cases l with
  | nil => simp at h
  | cons a l => rfl

theorem getLastD_map (f : α → β) (l : List α) (d : β) (d' : α) (h : l ≠ []) :
    (l.map f).getLastD d = f (l.getLastD d') := by
  induction l with
  | nil => simp at h
  | cons a l ih =>
      cases l with
      | nil => rfl
      | cons b l => simpa using ih (by simp)

/-- Strictly increasing (as `Chain'`) gives strict order on in-range `getD`. -/
theorem chain_lt_getD {l : List α} {r : α → α → Prop} [IsTrans α r]
    (h : l.Chain' r) (i j : ℕ) (hij : i < j) (hj : j < l.length) (d : α) :
    r (l.getD i d) (l.getD j d) := by
  rw [List.chain'_iff_pairwise] at h
  rw [List.getD_eq_getElem l d (by omega), List.getD_eq_getElem l d hj]
  exact List.pairwise_iff_getElem.mp h i j (by omega) hj hij

end ListHelpers2

/-! ### BinPlanner (`setup_bins`, relative.py lines 157-192)

The power-law cumulative phase curve `d_phi` of lines 166-171 is the
pointwise sum `Σ_k sign(γ_k) · d_alpha_k · f^(γ_k)` over the five
post-Newtonian exponents; it enters `setup_bins` only through its values
on the useful grid.  Since rational powers `f^(−5/3)` etc. leave ℚ, the
curve is abstracted as the pointwise function `phi : ℚ → ℚ`; every other
step of `setup_bins` (band filtering, anchoring, bin counting, target
placement, grid-index lookup, widths and centers) is embedded literally.
Python `int(x // eps)` on nonnegative floats is `Int.floor (x / eps)`;
`np.where(cond)[0][0]` is `firstIdx` (raising `IndexError`, modelled as
`Except.error`, when empty); a zero `number_of_bins` makes the Python
expression `i / self.number_of_bins` raise `ZeroDivisionError`; a
`number_of_bins` of `-2` or less makes `np.zeros(number_of_bins + 1)`
raise `ValueError` (negative dimensions). -/

section BinPlanner

/-- Lines 162-164: the grid restricted to
`[minimum_frequency, maximum_frequency]`. -/
def frequency_array_useful (frequency_array : List ℚ) (fmin fmax : ℚ) : List ℚ :=
  frequency_array.filter (fun f => decide (fmin ≤ f) && decide (f ≤ fmax))

/-- Lines 166-171: the curve values on the useful grid. -/
def d_phi_list (frequency_array : List ℚ) (fmin fmax : ℚ) (phi : ℚ → ℚ) : List ℚ :=
  (frequency_array_useful frequency_array fmin fmax).map phi

/-- Line 172: `d_phi_from_start = d_phi - d_phi[0]`. -/
def d_phi_from_start (frequency_array : List ℚ) (fmin fmax : ℚ) (phi : ℚ → ℚ) : List ℚ :=
  (d_phi_list frequency_array fmin fmax phi).map
    (fun x => x - (d_phi_list frequency_array fmin fmax phi).headD 0)

/-- `d_phi_from_start[-1]`, the total cumulative phase deviation. -/
def total_phase_dev (frequency_array : List ℚ) (fmin fmax : ℚ) (phi : ℚ → ℚ) : ℚ :=
  (d_phi_from_start frequency_array fmin fmax phi).getLastD 0

/-- Line 173: `self.number_of_bins = int(d_phi_from_start[-1] // self.epsilon)`. -/
def number_of_bins_det (frequency_array : List ℚ) (fmin fmax : ℚ) (phi : ℚ → ℚ)
    (eps : ℚ) : ℤ :=
  Int.floor (total_phase_dev frequency_array fmin fmax phi / eps)

/-- Line 178: first index of the useful grid at which the anchored curve
reaches the `i`-th target `(i / number_of_bins) * d_phi_from_start[-1]`. -/
def bin_edge_lookup (frequency_array : List ℚ) (fmin fmax : ℚ) (phi : ℚ → ℚ) (eps : ℚ)
    (i : ℕ) : Option ℕ :=
  firstIdx
    (fun x => decide
      (((i : ℚ) / ((number_of_bins_det frequency_array fmin fmax phi eps : ℤ) : ℚ))
          * total_phase_dev frequency_array fmin fmax phi ≤ x))
    (d_phi_from_start frequency_array fmin fmax phi)

/-- Lines 177-180: the bin-edge frequencies. -/
def bin_freqs_det (frequency_array : List ℚ) (fmin fmax : ℚ) (phi : ℚ → ℚ)
    (eps : ℚ) : List ℚ :=
  (List.range (number_of_bins_det frequency_array fmin fmax phi eps + 1).toNat).map
    (fun i => (frequency_array_useful frequency_array fmin fmax).getD
      ((bin_edge_lookup frequency_array fmin fmax phi eps i).getD 0) 0)

/-- Line 181: `np.where(frequency_array >= bin_freq)[0][0]`. -/
def grid_index_lookup (frequency_array : List ℚ) (bf : ℚ) : Option ℕ :=
  firstIdx (fun f => decide (bf ≤ f)) frequency_array

/-- Line 181 applied to every edge. -/
def bin_inds_det (frequency_array : List ℚ) (fmin fmax : ℚ) (phi : ℚ → ℚ)
    (eps : ℚ) : List ℕ :=
  (bin_freqs_det frequency_array fmin fmax phi eps).map
    (fun bf => (grid_index_lookup frequency_array bf).getD 0)

/-- Per-detector `BinSet`: the state written by `setup_bins`. -/
structure BinData where
  number_of_bins : ℤ
  bin_freqs : List ℚ
  bin_inds : List ℕ
  bin_widths : List ℚ
  bin_centers : List ℚ
  deriving DecidableEq

/-- `setup_bins` for one interferometer (lines 157-192).  Error branches
carry the Python exception that the corresponding step would raise. -/
def setup_bins_det (frequency_array : List ℚ) (fmin fmax : ℚ) (phi : ℚ → ℚ)
    (eps : ℚ) : Except String BinData :=
  if frequency_array_useful frequency_array fmin fmax = [] then
    .error "IndexError: d_phi[0] on an empty useful band"
  else if number_of_bins_det frequency_array fmin fmax phi eps = 0 then
    .error "ZeroDivisionError: division by zero"
  else if number_of_bins_det frequency_array fmin fmax phi eps + 1 < 0 then
    .error "ValueError: negative dimensions are not allowed"
  else if (List.range (number_of_bins_det frequency_array fmin fmax phi eps
        + 1).toNat).all
      (fun i => (bin_edge_lookup frequency_array fmin fmax phi eps i).isSome) = false then
    .error "IndexError: cumulative curve never reaches a target"
  else if (bin_freqs_det frequency_array fmin fmax phi eps).all
      (fun bf => (grid_index_lookup frequency_array bf).isSome) = false then
    .error "IndexError: no grid frequency at or above a bin edge"
  else
    .ok { number_of_bins := number_of_bins_det frequency_array fmin fmax phi eps
          bin_freqs := bin_freqs_det frequency_array fmin fmax phi eps
          bin_inds := bin_inds_det frequency_array fmin fmax phi eps
          bin_widths := List.zipWith (fun a b => a - b)
            ((bin_freqs_det frequency_array fmin fmax phi eps).drop 1)
            (bin_freqs_det frequency_array fmin fmax phi eps).dropLast
          bin_centers := List.zipWith (fun a b => (a + b) / 2)
            ((bin_freqs_det frequency_array fmin fmax phi eps).drop 1)
            (bin_freqs_det frequency_array fmin fmax phi eps).dropLast }

/-- Line 189-191: the fiducial waveform sampled at the bin-edge grid
indices (`per_detector_fiducial_waveform_points`). -/
def fiducial_points_det (waveform : List CQ) (bin_inds : List ℕ) : List CQ :=
  bin_inds.map (fun k => waveform.getD k 0)

end BinPlanner

/-- **C8.** For every detector whose total cumulative phase deviation across
the usable band is nonnegative and smaller than `epsilon` (so the computed
bin count is zero), `setup_bins` stops with an error — the Python loop body
evaluates `i / self.number_of_bins` with `number_of_bins = 0`, raising
`ZeroDivisionError` — and does not silently produce empty bin arrays. -/
theorem C8_small_deviation_error (frequency_array : List ℚ) (fmin fmax : ℚ)
    (phi : ℚ → ℚ) (eps : ℚ)
    (hne : frequency_array_useful frequency_array fmin fmax ≠ [])
    (heps : 0 < eps)
    (htot0 : 0 ≤ total_phase_dev frequency_array fmin fmax phi)
    (htot : total_phase_dev frequency_array fmin fmax phi < eps) :
    setup_bins_det frequency_array fmin fmax phi eps
      = .error "ZeroDivisionError: division by zero" := by
  have hN : number_of_bins_det frequency_array fmin fmax phi eps = 0 := by
    unfold number_of_bins_det
    rw [Int.floor_eq_zero_iff, Set.mem_Ico]
    exact ⟨div_nonneg htot0 heps.le, (div_lt_one heps).mpr htot⟩
  unfold setup_bins_det
  rw [if_neg hne, if_pos hN]

theorem C8_small_deviation_error_witness :
    setup_bins_det [1, 2] 1 2 (fun _ => 0) 1
      = .error "ZeroDivisionError: division by zero" := by
  have h1 : frequency_array_useful [1, 2] 1 2 = [1, 2] := rfl
  have h2 : total_phase_dev [1, 2] 1 2 (fun _ => 0) = 0 := by
    unfold total_phase_dev d_phi_from_start d_phi_list
    rw [h1]
    norm_num [List.getLastD_cons]
  exact C8_small_deviation_error [1, 2] 1 2 (fun _ => 0) 1 (by decide) (by norm_num)
    (by rw [h2]) (by rw [h2]; norm_num)

/-- Helper: under a nonempty band, nonnegative total deviation, and a
positive computed bin count, every target lookup succeeds. -/
theorem bin_edge_lookup_isSome (frequency_array : List ℚ) (fmin fmax : ℚ)
    (phi : ℚ → ℚ) (eps : ℚ)
    (hne : frequency_array_useful frequency_array fmin fmax ≠ [])
    (htot0 : 0 ≤ total_phase_dev frequency_array fmin fmax phi)
    (hN : 1 ≤ number_of_bins_det frequency_array fmin fmax phi eps)
    (i : ℕ) (hi : i ≤ (number_of_bins_det frequency_array fmin fmax phi eps).toNat) :
    (bin_edge_lookup frequency_array fmin fmax phi eps i).isSome = true := by
  have hlenF : 0 < (frequency_array_useful frequency_array fmin fmax).length :=
    List.length_pos.mpr hne
  have hlen : (d_phi_from_start frequency_array fmin fmax phi).length
      = (frequency_array_useful frequency_array fmin fmax).length := by
    unfold d_phi_from_start d_phi_list
    simp [List.length_map]
  have hdne : d_phi_from_start frequency_array fmin fmax phi ≠ [] := by
    intro hc
    rw [hc] at hlen
    simp at hlen
    omega
  have htotal_getD : total_phase_dev frequency_array fmin fmax phi
      = (d_phi_from_start frequency_array fmin fmax phi).getD
          ((d_phi_from_start frequency_array fmin fmax phi).length - 1) 0 := by
    unfold total_phase_dev
    exact getLastD_eq_getD_of_ne _ 0 hdne
  unfold bin_edge_lookup
  apply firstIdx_isSome_of _ _
    ((d_phi_from_start frequency_array fmin fmax phi).length - 1) 0 (by omega)
  simp only [decide_eq_true_eq]
  rw [← htotal_getD]
  have hNq : (0 : ℚ) < ((number_of_bins_det frequency_array fmin fmax phi eps : ℤ) : ℚ) := by
    exact_mod_cast (by omega : (0 : ℤ) < number_of_bins_det frequency_array fmin fmax phi eps)
  have hiq : ((i : ℚ) / ((number_of_bins_det frequency_array fmin fmax phi eps : ℤ) : ℚ)) ≤ 1 := by
    rw [div_le_one hNq]
    have : (i : ℤ) ≤ number_of_bins_det frequency_array fmin fmax phi eps := by omega
    exact_mod_cast this
  calc ((i : ℚ) / ((number_of_bins_det frequency_array fmin fmax phi eps : ℤ) : ℚ))
        * total_phase_dev frequency_array fmin fmax phi
      ≤ 1 * total_phase_dev frequency_array fmin fmax phi := by
        exact mul_le_mul_of_nonneg_right hiq htot0
    _ = total_phase_dev frequency_array fmin fmax phi := one_mul _

/-- Helper: with a nonempty band, nonnegative total deviation and positive
bin count, `setup_bins` succeeds and returns exactly the edge / index /
width / center arrays of the embedding. -/
theorem setup_bins_det_ok (frequency_array : List ℚ) (fmin fmax : ℚ)
    (phi : ℚ → ℚ) (eps : ℚ)
    (hne : frequency_array_useful frequency_array fmin fmax ≠ [])
    (htot0 : 0 ≤ total_phase_dev frequency_array fmin fmax phi)
    (hN : 1 ≤ number_of_bins_det frequency_array fmin fmax phi eps) :
    setup_bins_det frequency_array fmin fmax phi eps
      = .ok { number_of_bins := number_of_bins_det frequency_array fmin fmax phi eps
              bin_freqs := bin_freqs_det frequency_array fmin fmax phi eps
              bin_inds := bin_inds_det frequency_array fmin fmax phi eps
              bin_widths := List.zipWith (fun a b => a - b)
                ((bin_freqs_det frequency_array fmin fmax phi eps).drop 1)
                (bin_freqs_det frequency_array fmin fmax phi eps).dropLast
              bin_centers := List.zipWith (fun a b => (a + b) / 2)
                ((bin_freqs_det frequency_array fmin fmax phi eps).drop 1)
                (bin_freqs_det frequency_array fmin fmax phi eps).dropLast } := by
  have hlen : (d_phi_from_start frequency_array fmin fmax phi).length
      = (frequency_array_useful frequency_array fmin fmax).length := by
    unfold d_phi_from_start d_phi_list
    simp [List.length_map]
  have g4 : (List.range (number_of_bins_det frequency_array fmin fmax phi eps
        + 1).toNat).all
      (fun i => (bin_edge_lookup frequency_array fmin fmax phi eps i).isSome) = true := by
    rw [List.all_eq_true]
    intro i hi
    rw [List.mem_range] at hi
    exact bin_edge_lookup_isSome frequency_array fmin fmax phi eps hne htot0 hN i (by omega)
  have hfmem : ∀ bf ∈ bin_freqs_det frequency_array fmin fmax phi eps,
      bf ∈ frequency_array_useful frequency_array fmin fmax := by
    intro bf hbf
    unfold bin_freqs_det at hbf
    rw [List.mem_map] at hbf
    obtain ⟨i, hir, rfl⟩ := hbf
    rw [List.mem_range] at hir
    have hs := bin_edge_lookup_isSome frequency_array fmin fmax phi eps hne htot0 hN i
      (by omega)
    obtain ⟨j, hj⟩ := Option.isSome_iff_exists.mp hs
    obtain ⟨hjlt, -, -⟩ := firstIdx_spec _ _ j 0 hj
    rw [hj]
    exact getD_mem_of_lt _ _ (by rw [← hlen]; simpa using hjlt) 0
  have g5 : (bin_freqs_det frequency_array fmin fmax phi eps).all
      (fun bf => (grid_index_lookup frequency_array bf).isSome) = true := by
    rw [List.all_eq_true]
    intro bf hbf
    have hmem : bf ∈ frequency_array :=
      List.mem_of_mem_filter (hfmem bf hbf)
    obtain ⟨m, hm, hval⟩ := List.mem_iff_getElem.mp hmem
    unfold grid_index_lookup
    apply firstIdx_isSome_of _ _ m 0 hm
    simp only [decide_eq_true_eq]
    rw [List.getD_eq_getElem _ _ hm, hval]
  unfold setup_bins_det
  rw [if_neg hne, if_neg (by omega : ¬ number_of_bins_det frequency_array fmin fmax phi eps
        = 0),
    if_neg (by omega : ¬ number_of_bins_det frequency_array fmin fmax phi eps + 1 < 0),
    if_neg (by simp [g4]), if_neg (by simp [g5])]

/-- **C4.** For every detector, `setup_bins` computes the bin count as the
floor of the total cumulative phase deviation across the usable band
(the anchored curve's value at the band end, `phi(f_last) − phi(f_first)`)
divided by `epsilon`, and places bin edge `i` (for `i = 0 … N`) at the
first useful-grid frequency at which the anchored cumulative
phase-deviation curve reaches `(i/N)` times the total deviation — i.e.
snapped to the nearest grid frequency at-or-above the target.  (The
characterisation below does not even require the curve to be monotone;
for the monotone curve of the source it coincides with the claim's
reading.) -/
theorem C4_setup_bins_count_and_placement (frequency_array : List ℚ) (fmin fmax : ℚ)
    (phi : ℚ → ℚ) (eps : ℚ)
    (hne : frequency_array_useful frequency_array fmin fmax ≠ [])
    (htot0 : 0 ≤ total_phase_dev frequency_array fmin fmax phi)
    (hN : 1 ≤ number_of_bins_det frequency_array fmin fmax phi eps) :
    ∃ bd, setup_bins_det frequency_array fmin fmax phi eps = .ok bd ∧
      bd.number_of_bins = Int.floor
        ((phi ((frequency_array_useful frequency_array fmin fmax).getLastD 0)
          - phi ((frequency_array_useful frequency_array fmin fmax).headD 0)) / eps) ∧
      bd.bin_freqs.length
        = (number_of_bins_det frequency_array fmin fmax phi eps).toNat + 1 ∧
      ∀ i ≤ (number_of_bins_det frequency_array fmin fmax phi eps).toNat,
        ∃ j < (frequency_array_useful frequency_array fmin fmax).length,
          bd.bin_freqs.getD i 0
              = (frequency_array_useful frequency_array fmin fmax).getD j 0 ∧
          ((i : ℚ) / ((number_of_bins_det frequency_array fmin fmax phi eps : ℤ) : ℚ))
              * total_phase_dev frequency_array fmin fmax phi
            ≤ (d_phi_from_start frequency_array fmin fmax phi).getD j 0 ∧
          ∀ k < j, (d_phi_from_start frequency_array fmin fmax phi).getD k 0
            < ((i : ℚ) / ((number_of_bins_det frequency_array fmin fmax phi eps : ℤ) : ℚ))
                * total_phase_dev frequency_array fmin fmax phi := by
  have hlen : (d_phi_from_start frequency_array fmin fmax phi).length
      = (frequency_array_useful frequency_array fmin fmax).length := by
    unfold d_phi_from_start d_phi_list
    simp [List.length_map]
  refine ⟨_, setup_bins_det_ok frequency_array fmin fmax phi eps hne htot0 hN, ?_, ?_, ?_⟩
  · show number_of_bins_det frequency_array fmin fmax phi eps = _
    have hmapne : (frequency_array_useful frequency_array fmin fmax).map phi ≠ [] := by
      intro hc
      exact hne (by simpa using hc)
    have htotal_eq : total_phase_dev frequency_array fmin fmax phi
        = phi ((frequency_array_useful frequency_array fmin fmax).getLastD 0)
          - phi ((frequency_array_useful frequency_array fmin fmax).headD 0) := by
      unfold total_phase_dev d_phi_from_start d_phi_list
      rw [getLastD_map _ _ 0 0 hmapne, getLastD_map phi _ 0 0 hne,
        headD_map phi _ 0 0 hne]
    unfold number_of_bins_det
    rw [htotal_eq]
  · show (bin_freqs_det frequency_array fmin fmax phi eps).length = _
    unfold bin_freqs_det
    rw [List.length_map, List.length_range]
    omega
  · intro i hi
    have hs := bin_edge_lookup_isSome frequency_array fmin fmax phi eps hne htot0 hN i hi
    obtain ⟨j, hj⟩ := Option.isSome_iff_exists.mp hs
    have hj' := hj
    unfold bin_edge_lookup at hj'
    obtain ⟨hjlt, hp, hmin⟩ := firstIdx_spec _ _ j 0 hj'
    refine ⟨j, by omega, ?_, ?_, ?_⟩
    · show (bin_freqs_det frequency_array fmin fmax phi eps).getD i 0 = _
      unfold bin_freqs_det
      rw [getD_map_of_lt _ _ i (by rw [List.length_range]; omega) 0 0]
      have hrange : (List.range (number_of_bins_det frequency_array fmin fmax phi eps
          + 1).toNat).getD i 0 = i := by
        rw [List.getD_eq_getElem _ _ (by rw [List.length_range]; omega),
          List.getElem_range]
      rw [hrange, hj]
      rfl
    · simpa using of_decide_eq_true hp
    · intro k hk
      have := hmin k hk
      simp only [decide_eq_false_iff_not, not_le] at this
      exact this

theorem C4_setup_bins_count_and_placement_witness :
    ∃ bd, setup_bins_det [1, 2, 3, 4] 1 4 (fun q => q) (7/5) = .ok bd ∧
      bd.number_of_bins = Int.floor
        (((fun q => q) (([1, 2, 3, 4] : List ℚ).getLastD 0)
          - (fun q => q) (([1, 2, 3, 4] : List ℚ).headD 0)) / (7/5)) ∧
      bd.bin_freqs.length
        = (number_of_bins_det [1, 2, 3, 4] 1 4 (fun q => q) (7/5)).toNat + 1 ∧
      ∀ i ≤ (number_of_bins_det [1, 2, 3, 4] 1 4 (fun q => q) (7/5)).toNat,
        ∃ j < (frequency_array_useful [1, 2, 3, 4] 1 4).length,
          bd.bin_freqs.getD i 0 = (frequency_array_useful [1, 2, 3, 4] 1 4).getD j 0 ∧
          ((i : ℚ) / ((number_of_bins_det [1, 2, 3, 4] 1 4 (fun q => q) (7/5) : ℤ) : ℚ))
              * total_phase_dev [1, 2, 3, 4] 1 4 (fun q => q)
            ≤ (d_phi_from_start [1, 2, 3, 4] 1 4 (fun q => q)).getD j 0 ∧
          ∀ k < j, (d_phi_from_start [1, 2, 3, 4] 1 4 (fun q => q)).getD k 0
            < ((i : ℚ) / ((number_of_bins_det [1, 2, 3, 4] 1 4 (fun q => q) (7/5) : ℤ) : ℚ))
                * total_phase_dev [1, 2, 3, 4] 1 4 (fun q => q) := by
  have h1 : frequency_array_useful [1, 2, 3, 4] 1 4 = [1, 2, 3, 4] := rfl
  have h2 : total_phase_dev [1, 2, 3, 4] 1 4 (fun q => q) = 3 := by
    unfold total_phase_dev d_phi_from_start d_phi_list
    rw [h1]
    norm_num [List.getLastD_cons]
  have hfrw : frequency_array_useful [1, 2, 3, 4] 1 4
      = ([1, 2, 3, 4] : List ℚ) := h1
  refine C4_setup_bins_count_and_placement [1, 2, 3, 4] 1 4 (fun q => q) (7/5)
    (by rw [h1]; decide) (by rw [h2]; norm_num) ?_
  unfold number_of_bins_det
  rw [h2]
  norm_num

/-- Build a `Chain'` from a `getD` characterisation of adjacent pairs. -/
theorem chain_of_getD {α : Type} (r : α → α → Prop) (l : List α) (d : α)
    (h : ∀ i, i + 1 < l.length → r (l.getD i d) (l.getD (i + 1) d)) : l.Chain' r := by
  rw [List.chain'_iff_get]
  intro i hi
  have h1 := h i (by omega)
  rw [List.getD_eq_getElem _ _ (by omega), List.getD_eq_getElem _ _ (by omega)] at h1
  simpa [List.get_eq_getElem] using h1

/-- Transfer a pointwise `getD` property to all members. -/
theorem forall_mem_of_getD {α : Type} (l : List α) (p : α → Prop) (d : α)
    (h : ∀ i, i < l.length → p (l.getD i d)) : ∀ x ∈ l, p x := by
  intro x hx
  obtain ⟨i, hi, rfl⟩ := List.mem_iff_getElem.mp hx
  have := h i hi
  rwa [List.getD_eq_getElem _ _ hi] at this

/-- On a strictly increasing grid, the first index at-or-above the value
stored at position `m` is `m` itself: the exact-membership lookup of
line 181 recovers the grid position of a bin-edge frequency. -/
theorem firstIdx_sorted_getD (fa : List ℚ) (hch : fa.Chain' (· < ·)) (m : ℕ)
    (hm : m < fa.length) :
    firstIdx (fun f => decide (fa.getD m 0 ≤ f)) fa = some m := by
  apply firstIdx_eq_some_of _ _ m 0 hm
  · simp
  · intro k hk
    have hlt := chain_lt_getD hch k m hk hm 0
    simp only [decide_eq_false_iff_not, not_le]
    exact hlt

/-- The `i`-th bin-edge frequency in terms of a successful target lookup. -/
theorem bin_freqs_det_getD (frequency_array : List ℚ) (fmin fmax : ℚ) (phi : ℚ → ℚ)
    (eps : ℚ) (i j : ℕ)
    (hi : i < (number_of_bins_det frequency_array fmin fmax phi eps + 1).toNat)
    (hj : bin_edge_lookup frequency_array fmin fmax phi eps i = some j) :
    (bin_freqs_det frequency_array fmin fmax phi eps).getD i 0
      = (frequency_array_useful frequency_array fmin fmax).getD j 0 := by
  unfold bin_freqs_det
  rw [getD_map_of_lt _ _ i (by rw [List.length_range]; omega) 0 0]
  have hrange : (List.range (number_of_bins_det frequency_array fmin fmax phi eps
      + 1).toNat).getD i 0 = i := by
    rw [List.getD_eq_getElem _ _ (by rw [List.length_range]; omega), List.getElem_range]
  rw [hrange, hj]
  rfl

/-- **C5 is false as stated.**  On the two-point grid `[1, 2]` with a
strictly increasing curve (`phi = id`, deviations `[0, 1]`) and
`epsilon = 2/5`, the bin count is `⌊1/(2/5)⌋ = 2` but the grid is too
coarse for three distinct edges: the targets `1/2` and `1` are both first
reached at grid index `1`, so `setup_bins` returns edges `[1, 2, 2]`,
indices `[0, 1, 1]` and widths `[1, 0]` — the edges and indices are not
strictly increasing and one width is zero. -/
theorem C5_counterexample :
    setup_bins_det [1, 2] 1 2 (fun q => q) (2/5)
      = .ok { number_of_bins := 2, bin_freqs := [1, 2, 2], bin_inds := [0, 1, 1],
              bin_widths := [1, 0], bin_centers := [3/2, 2] } ∧
    ¬ List.Chain' (· < ·) ([1, 2, 2] : List ℚ) ∧
    ¬ List.Chain' (· < ·) ([0, 1, 1] : List ℕ) ∧
    ¬ (∀ w ∈ ([1, 0] : List ℚ), 0 < w) := by
  have h1 : frequency_array_useful [1, 2] 1 2 = [1, 2] := rfl
  have hdFS : d_phi_from_start [1, 2] 1 2 (fun q => q) = [0, 1] := by
    unfold d_phi_from_start d_phi_list
    rw [h1]
    norm_num
  have htot : total_phase_dev [1, 2] 1 2 (fun q => q) = 1 := by
    unfold total_phase_dev
    rw [hdFS]
    rfl
  have hN : number_of_bins_det [1, 2] 1 2 (fun q => q) (2/5) = 2 := by
    unfold number_of_bins_det
    rw [htot]
    norm_num
  have hl0 : bin_edge_lookup [1, 2] 1 2 (fun q => q) (2/5) 0 = some 0 := by
    unfold bin_edge_lookup
    rw [hdFS, hN, htot]
    norm_num [firstIdx]
  have hl1 : bin_edge_lookup [1, 2] 1 2 (fun q => q) (2/5) 1 = some 1 := by
    unfold bin_edge_lookup
    rw [hdFS, hN, htot]
    norm_num [firstIdx]
  have hl2 : bin_edge_lookup [1, 2] 1 2 (fun q => q) (2/5) 2 = some 1 := by
    unfold bin_edge_lookup
    rw [hdFS, hN, htot]
    norm_num [firstIdx]
  have hbf : bin_freqs_det [1, 2] 1 2 (fun q => q) (2/5) = [1, 2, 2] := by
    unfold bin_freqs_det
    rw [hN, show ((2 : ℤ) + 1).toNat = 3 from rfl,
      show List.range 3 = [0, 1, 2] from rfl]
    rw [List.map_cons, List.map_cons, List.map_cons, List.map_nil, hl0, hl1, hl2]
    rfl
  have hinds : bin_inds_det [1, 2] 1 2 (fun q => q) (2/5) = [0, 1, 1] := by
    unfold bin_inds_det grid_index_lookup
    rw [hbf]
    norm_num [firstIdx]
  have hok := setup_bins_det_ok [1, 2] 1 2 (fun q => q) (2/5)
    (by rw [h1]; decide) (by rw [htot]; norm_num) (by rw [hN]; norm_num)
  refine ⟨?_, ?_, ?_, ?_⟩
  · rw [hok, hN, hbf, hinds]
    norm_num
  · intro h
    rw [List.chain'_cons, List.chain'_cons] at h
    exact absurd h.2.1 (by norm_num)
  · intro h
    rw [List.chain'_cons, List.chain'_cons] at h
    exact absurd h.2.1 (by omega)
  · intro h
    have := h 0 (by simp)
    norm_num at this

/-- **C5 (amended).** For every detector with a strictly increasing grid and
a strictly increasing cumulative phase curve on its usable band, and
provided consecutive targets are first reached at distinct grid indices
(the grid is fine enough — `C5_counterexample` shows this proviso is
necessary), the constructed `BinSet` satisfies: the bin-edge frequencies
are strictly increasing, the grid indices are strictly increasing, every
bin width is positive, the first edge equals the detector's smallest
usable grid frequency, and the last edge equals its largest usable grid
frequency. -/
theorem C5_binset_invariants (frequency_array : List ℚ) (fmin fmax : ℚ)
    (phi : ℚ → ℚ) (eps : ℚ)
    (hga : frequency_array.Chain' (· < ·))
    (hne : frequency_array_useful frequency_array fmin fmax ≠ [])
    (hphi : ((frequency_array_useful frequency_array fmin fmax).map phi).Chain' (· < ·))
    (hN : 1 ≤ number_of_bins_det frequency_array fmin fmax phi eps)
    (hsep : ∀ i < (number_of_bins_det frequency_array fmin fmax phi eps).toNat,
      (bin_edge_lookup frequency_array fmin fmax phi eps i).getD 0
        < (bin_edge_lookup frequency_array fmin fmax phi eps (i + 1)).getD 0) :
    ∃ bd, setup_bins_det frequency_array fmin fmax phi eps = .ok bd ∧
      bd.bin_freqs.Chain' (· < ·) ∧
      bd.bin_inds.Chain' (· < ·) ∧
      (∀ w ∈ bd.bin_widths, 0 < w) ∧
      bd.bin_freqs.headD 0 = (frequency_array_useful frequency_array fmin fmax).headD 0 ∧
      bd.bin_freqs.getLastD 0
        = (frequency_array_useful frequency_array fmin fmax).getLastD 0 := by
  have hlenF : 0 < (frequency_array_useful frequency_array fmin fmax).length :=
    List.length_pos.mpr hne
  have hlen : (d_phi_from_start frequency_array fmin fmax phi).length
      = (frequency_array_useful frequency_array fmin fmax).length := by
    unfold d_phi_from_start d_phi_list
    simp [List.length_map]
  have hdchain : (d_phi_from_start frequency_array fmin fmax phi).Chain' (· < ·) := by
    unfold d_phi_from_start d_phi_list
    rw [List.chain'_map]
    exact hphi.imp (fun _ _ h => sub_lt_sub_right h _)
  have hd0 : (d_phi_from_start frequency_array fmin fmax phi).getD 0 0 = 0 := by
    unfold d_phi_from_start
    rw [getD_map_of_lt _ _ 0 (by unfold d_phi_list; rw [List.length_map]; omega) 0 0,
      headD_eq_getD]
    exact sub_self _
  have hdne : d_phi_from_start frequency_array fmin fmax phi ≠ [] := by
    intro hc
    rw [hc] at hlen
    simp at hlen
    omega
  have htotD : total_phase_dev frequency_array fmin fmax phi
      = (d_phi_from_start frequency_array fmin fmax phi).getD
        ((d_phi_from_start frequency_array fmin fmax phi).length - 1) 0 := by
    unfold total_phase_dev
    exact getLastD_eq_getD_of_ne _ 0 hdne
  have htot0 : 0 ≤ total_phase_dev frequency_array fmin fmax phi := by
    rcases Nat.eq_zero_or_pos ((d_phi_from_start frequency_array fmin fmax phi).length - 1)
      with h0 | hpos
    · rw [htotD, h0, hd0]
    · rw [htotD]
      have hlt := chain_lt_getD hdchain 0 _ hpos (by omega) 0
      rw [hd0] at hlt
      exact hlt.le
  have hok := setup_bins_det_ok frequency_array fmin fmax phi eps hne htot0 hN
  have hjfact : ∀ i ≤ (number_of_bins_det frequency_array fmin fmax phi eps).toNat,
      bin_edge_lookup frequency_array fmin fmax phi eps i
        = some ((bin_edge_lookup frequency_array fmin fmax phi eps i).getD 0)
      ∧ (bin_edge_lookup frequency_array fmin fmax phi eps i).getD 0
        < (frequency_array_useful frequency_array fmin fmax).length := by
    intro i hi
    have hs := bin_edge_lookup_isSome frequency_array fmin fmax phi eps hne htot0 hN i hi
    obtain ⟨j, hj⟩ := Option.isSome_iff_exists.mp hs
    have hj2 := hj
    unfold bin_edge_lookup at hj2
    obtain ⟨hjlt, -, -⟩ := firstIdx_spec _ _ j 0 hj2
    rw [hj]
    exact ⟨rfl, by rw [← hlen]; simpa using hjlt⟩
  have hFchain : (frequency_array_useful frequency_array fmin fmax).Chain' (· < ·) := by
    rw [List.chain'_iff_pairwise]
    exact (List.chain'_iff_pairwise.mp hga).sublist (List.filter_sublist _)
  have hedges_len : (bin_freqs_det frequency_array fmin fmax phi eps).length
      = (number_of_bins_det frequency_array fmin fmax phi eps).toNat + 1 := by
    unfold bin_freqs_det
    rw [List.length_map, List.length_range]
    omega
  have hedge_lt : ∀ i < (number_of_bins_det frequency_array fmin fmax phi eps).toNat,
      (bin_freqs_det frequency_array fmin fmax phi eps).getD i 0
        < (bin_freqs_det frequency_array fmin fmax phi eps).getD (i + 1) 0 := by
    intro i hi
    obtain ⟨hji, hjilt⟩ := hjfact i (by omega)
    obtain ⟨hji1, hji1lt⟩ := hjfact (i + 1) (by omega)
    rw [bin_freqs_det_getD frequency_array fmin fmax phi eps i _ (by omega) hji,
      bin_freqs_det_getD frequency_array fmin fmax phi eps (i + 1) _ (by omega) hji1]
    exact chain_lt_getD hFchain _ _ (hsep i hi) hji1lt 0
  have hind : ∀ i ≤ (number_of_bins_det frequency_array fmin fmax phi eps).toNat,
      ∃ m, m < frequency_array.length ∧
        frequency_array.getD m 0
            = (bin_freqs_det frequency_array fmin fmax phi eps).getD i 0 ∧
        (bin_inds_det frequency_array fmin fmax phi eps).getD i 0 = m := by
    intro i hi
    obtain ⟨hji, hjilt⟩ := hjfact i hi
    have hv : (bin_freqs_det frequency_array fmin fmax phi eps).getD i 0
        ∈ frequency_array := by
      rw [bin_freqs_det_getD frequency_array fmin fmax phi eps i _ (by omega) hji]
      exact List.mem_of_mem_filter (getD_mem_of_lt _ _ hjilt 0)
    obtain ⟨m, hm, hval⟩ := List.mem_iff_getElem.mp hv
    have hvalD : frequency_array.getD m 0
        = (bin_freqs_det frequency_array fmin fmax phi eps).getD i 0 := by
      rw [List.getD_eq_getElem _ _ hm, hval]
    refine ⟨m, hm, hvalD, ?_⟩
    unfold bin_inds_det
    rw [getD_map_of_lt _ _ i (by rw [hedges_len]; omega) 0 0]
    unfold grid_index_lookup
    rw [← hvalD, firstIdx_sorted_getD frequency_array hga m hm]
    rfl
  refine ⟨_, hok, ?_, ?_, ?_, ?_, ?_⟩
  · show (bin_freqs_det frequency_array fmin fmax phi eps).Chain' (· < ·)
    apply chain_of_getD _ _ 0
    intro i hi1
    rw [hedges_len] at hi1
    exact hedge_lt i (by omega)
  · show (bin_inds_det frequency_array fmin fmax phi eps).Chain' (· < ·)
    have hinds_len : (bin_inds_det frequency_array fmin fmax phi eps).length
        = (number_of_bins_det frequency_array fmin fmax phi eps).toNat + 1 := by
      unfold bin_inds_det
      rw [List.length_map, hedges_len]
    apply chain_of_getD _ _ 0
    intro i hi1
    rw [hinds_len] at hi1
    obtain ⟨m, hm, hmv, hmi⟩ := hind i (by omega)
    obtain ⟨m', hm', hmv', hmi'⟩ := hind (i + 1) (by omega)
    rw [hmi, hmi']
    by_contra hcon
    push_neg at hcon
    have hlt := hedge_lt i (by omega)
    rw [← hmv, ← hmv'] at hlt
    rcases Nat.lt_or_ge m' m with hc | hc
    · have := chain_lt_getD hga m' m hc hm 0
      linarith
    · have hmm : m' = m := le_antisymm hcon hc
      rw [hmm] at hlt
      exact lt_irrefl _ hlt
  · show ∀ w ∈ List.zipWith (fun a b => a - b)
        ((bin_freqs_det frequency_array fmin fmax phi eps).drop 1)
        (bin_freqs_det frequency_array fmin fmax phi eps).dropLast, 0 < w
    refine forall_mem_of_getD _ (fun w => 0 < w) 0 ?_
    intro k hk
    rw [List.length_zipWith, List.length_drop, List.length_dropLast, hedges_len] at hk
    have hkN : k < (number_of_bins_det frequency_array fmin fmax phi eps).toNat := by
      omega
    rw [getD_zipWith_of_lt _ _ _ k (by rw [List.length_drop, hedges_len]; omega)
          (by rw [List.length_dropLast, hedges_len]; omega) 0 0 0,
      getD_drop_one, getD_dropLast_of_lt _ _ (by rw [hedges_len]; omega),
      show 1 + k = k + 1 from Nat.add_comm 1 k]
    have := hedge_lt k hkN
    linarith
  · have hl0 : bin_edge_lookup frequency_array fmin fmax phi eps 0 = some 0 := by
      unfold bin_edge_lookup
      apply firstIdx_eq_some_of _ _ 0 0 (by omega)
      · simp only [decide_eq_true_eq, Nat.cast_zero, zero_div, zero_mul]
        rw [hd0]
      · intro k hk
        omega
    show (bin_freqs_det frequency_array fmin fmax phi eps).headD 0 = _
    rw [headD_eq_getD, headD_eq_getD,
      bin_freqs_det_getD frequency_array fmin fmax phi eps 0 0 (by omega) hl0]
  · have hcastN : (((number_of_bins_det frequency_array fmin fmax phi eps).toNat : ℕ) : ℚ)
        = ((number_of_bins_det frequency_array fmin fmax phi eps : ℤ) : ℚ) := by
      exact_mod_cast congrArg (fun z => ((z : ℤ) : ℚ))
        (Int.toNat_of_nonneg (by omega :
          0 ≤ number_of_bins_det frequency_array fmin fmax phi eps))
    have hNq : ((number_of_bins_det frequency_array fmin fmax phi eps : ℤ) : ℚ) ≠ 0 := by
      exact_mod_cast (by omega :
        number_of_bins_det frequency_array fmin fmax phi eps ≠ 0)
    have hlN : bin_edge_lookup frequency_array fmin fmax phi eps
        (number_of_bins_det frequency_array fmin fmax phi eps).toNat
        = some ((d_phi_from_start frequency_array fmin fmax phi).length - 1) := by
      unfold bin_edge_lookup
      apply firstIdx_eq_some_of _ _ _ 0 (by omega)
      · simp only [decide_eq_true_eq]
        rw [hcastN, div_self hNq, one_mul, htotD]
      · intro k hk
        simp only [decide_eq_false_iff_not, not_le]
        rw [hcastN, div_self hNq, one_mul, htotD]
        exact chain_lt_getD hdchain k _ hk (by omega) 0
    show (bin_freqs_det frequency_array fmin fmax phi eps).getLastD 0 = _
    rw [getLastD_eq_getD_of_ne _ 0 (by
        intro hc
        rw [hc] at hedges_len
        simp at hedges_len),
      getLastD_eq_getD_of_ne _ 0 hne, hedges_len]
    simp only [Nat.add_sub_cancel]
    rw [bin_freqs_det_getD frequency_array fmin fmax phi eps _ _ (by omega) hlN, hlen]

theorem C5_binset_invariants_witness :
    ∃ bd, setup_bins_det [1, 2, 3, 4] 1 4 (fun q => q) (7/5) = .ok bd ∧
      bd.bin_freqs.Chain' (· < ·) ∧
      bd.bin_inds.Chain' (· < ·) ∧
      (∀ w ∈ bd.bin_widths, 0 < w) ∧
      bd.bin_freqs.headD 0 = (frequency_array_useful [1, 2, 3, 4] 1 4).headD 0 ∧
      bd.bin_freqs.getLastD 0 = (frequency_array_useful [1, 2, 3, 4] 1 4).getLastD 0 := by
  have h1 : frequency_array_useful [1, 2, 3, 4] 1 4 = [1, 2, 3, 4] := rfl
  have hdFS : d_phi_from_start [1, 2, 3, 4] 1 4 (fun q => q) = [0, 1, 2, 3] := by
    unfold d_phi_from_start d_phi_list
    rw [h1]
    norm_num
  have h2 : total_phase_dev [1, 2, 3, 4] 1 4 (fun q => q) = 3 := by
    unfold total_phase_dev
    rw [hdFS]
    rfl
  have hN2 : number_of_bins_det [1, 2, 3, 4] 1 4 (fun q => q) (7/5) = 2 := by
    unfold number_of_bins_det
    rw [h2]
    norm_num
  have hlk0 : bin_edge_lookup [1, 2, 3, 4] 1 4 (fun q => q) (7/5) 0 = some 0 := by
    unfold bin_edge_lookup
    rw [hdFS, hN2, h2]
    norm_num [firstIdx]
  have hlk1 : bin_edge_lookup [1, 2, 3, 4] 1 4 (fun q => q) (7/5) 1 = some 2 := by
    unfold bin_edge_lookup
    rw [hdFS, hN2, h2]
    norm_num [firstIdx]
  have hlk2 : bin_edge_lookup [1, 2, 3, 4] 1 4 (fun q => q) (7/5) 2 = some 3 := by
    unfold bin_edge_lookup
    rw [hdFS, hN2, h2]
    norm_num [firstIdx]
  refine C5_binset_invariants [1, 2, 3, 4] 1 4 (fun q => q) (7/5)
    (by norm_num [List.chain'_cons, List.chain'_singleton])
    (by rw [h1]; decide)
    (by rw [h1]; simp; norm_num [List.chain'_cons, List.chain'_singleton])
    (by rw [hN2]; norm_num) ?_
  intro i hi
  rw [hN2] at hi
  have hi2 : i < 2 := by omega
  interval_cases i
  · rw [hlk0, hlk1]
    simp
  · rw [hlk1, hlk2]
    simp

/-! ### SummaryDataCompiler (`compute_summary_data`, relative.py lines 258-308)

Python slice semantics: `arr[j:j']` keeps samples `j, …, j'-1` — the
upper edge index is excluded.  The central frequency of bin `i`
(line 275) is `(f[ind_i] + f[ind_{i+1}]) / 2`, using the frequency at
the *upper edge index*, which the slice excludes. -/

section SummaryCompiler

/-- Python's `arr[j:j']` slice. -/
def pySlice {α : Type} (l : List α) (j j' : ℕ) : List α := (l.drop j).take (j' - j)

theorem pySlice_length {α : Type} (l : List α) (j j' : ℕ) :
    (pySlice l j j').length = min (j' - j) (l.length - j) := by
  simp [pySlice, List.length_take, List.length_drop]

theorem pySlice_getD {α : Type} (l : List α) (j j' k : ℕ) (hk : k < j' - j) (d : α) :
    (pySlice l j j').getD k d = l.getD (j + k) d := by
  unfold pySlice
  rw [getD_take_of_lt _ _ _ hk, getD_drop]

/-- Modelled from the spec: `noise_weighted_inner_product` is imported at
line 8 from `bilby.gw.utils`, whose source is not part of this
repository.  Per the spec (§4.3), the noise-weighted inner product of two
complex sequences `aa`, `bb` over a bin, given PSD values
`power_spectral_density` and duration `T`, is
`(4 / T) · Σ conj(aa) · bb / psd`, summed over the bin's samples. -/
def noise_weighted_inner_product (aa bb : List CQ) (power_spectral_density : List ℚ)
    (duration : ℚ) : CQ :=
  CQ.ofQ (4 / duration) *
    (List.zipWith (fun x p => x / CQ.ofQ p)
      (List.zipWith (fun a b => CQ.conj a * b) aa bb) power_spectral_density).sum

theorem nwip_eq_sum (A B : List CQ) (P : List ℚ) (T : ℚ) (n : ℕ)
    (hA : A.length = n) (hB : B.length = n) (hP : P.length = n) :
    noise_weighted_inner_product A B P T
      = CQ.ofQ (4 / T) * ∑ k in Finset.range n,
          CQ.conj (A.getD k 0) * B.getD k 0 / CQ.ofQ (P.getD k 0) := by
  unfold noise_weighted_inner_product
  congr 1
  rw [sum_zipWith_eq_sum_range (fun x p => x / CQ.ofQ p) _ _ n
        (by rw [List.length_zipWith, hA, hB, Nat.min_self]) hP 0 0]
  refine Finset.sum_congr rfl fun k hk => ?_
  have hk' := Finset.mem_range.mp hk
  rw [getD_zipWith_of_lt (fun a b => CQ.conj a * b) A B k (by omega) (by omega) 0 0 0]

/-- Lines 264-267: locate each bin edge inside the masked frequency grid
by exact floating-point equality (`np.where(masked_frequency_array ==
edge)[0][0]`); an edge absent from the masked grid raises `IndexError`. -/
def masked_bin_inds_det (bin_freqs masked_frequency_array : List ℚ) :
    Except String (List ℕ) :=
  if (bin_freqs.all
      (fun e => (firstIdx (fun f => decide (f = e)) masked_frequency_array).isSome))
      = false then
    .error "IndexError: bin edge not found in masked frequency array"
  else
    .ok (bin_freqs.map
      (fun e => (firstIdx (fun f => decide (f = e)) masked_frequency_array).getD 0))

/-- Lines 277-280: the bin's sample slice, from edge index `i` to edge
index `i+1` *exclusive*. -/
def bin_slice {α : Type} (l : List α) (inds : List ℕ) (i : ℕ) : List α :=
  pySlice l (inds.getD i 0) (inds.getD (i + 1) 0)

/-- Line 275: `0.5 * (f[ind_i] + f[ind_{i+1}])`. -/
def central_frequency (masked_frequency_array : List ℚ) (inds : List ℕ) (i : ℕ) : ℚ :=
  (masked_frequency_array.getD (inds.getD i 0) 0
    + masked_frequency_array.getD (inds.getD (i + 1) 0) 0) / 2

end SummaryCompiler

/-- Lines 282-287: `a0[i]`. -/
def summary_a0 (masked_strain masked_h0 : List CQ) (masked_psd : List ℚ)
    (inds : List ℕ) (duration : ℚ) (i : ℕ) : CQ :=
  noise_weighted_inner_product (bin_slice masked_h0 inds i)
    (bin_slice masked_strain inds i) (bin_slice masked_psd inds i) duration

/-- Lines 288-292: `b0[i]`. -/
def summary_b0 (masked_h0 : List CQ) (masked_psd : List ℚ)
    (inds : List ℕ) (duration : ℚ) (i : ℕ) : CQ :=
  noise_weighted_inner_product (bin_slice masked_h0 inds i)
    (bin_slice masked_h0 inds i) (bin_slice masked_psd inds i) duration

/-- Lines 294-298: `a1[i]`, with the strain multiplied by the frequency
offset from the bin's central frequency. -/
def summary_a1 (masked_frequency_array : List ℚ) (masked_strain masked_h0 : List CQ)
    (masked_psd : List ℚ) (inds : List ℕ) (duration : ℚ) (i : ℕ) : CQ :=
  noise_weighted_inner_product (bin_slice masked_h0 inds i)
    (List.zipWith
      (fun s f => s * CQ.ofQ (f - central_frequency masked_frequency_array inds i))
      (bin_slice masked_strain inds i) (bin_slice masked_frequency_array inds i))
    (bin_slice masked_psd inds i) duration

/-- Lines 300-304: `b1[i]`. -/
def summary_b1 (masked_frequency_array : List ℚ) (masked_h0 : List CQ)
    (masked_psd : List ℚ) (inds : List ℕ) (duration : ℚ) (i : ℕ) : CQ :=
  noise_weighted_inner_product (bin_slice masked_h0 inds i)
    (List.zipWith
      (fun h f => h * CQ.ofQ (f - central_frequency masked_frequency_array inds i))
      (bin_slice masked_h0 inds i) (bin_slice masked_frequency_array inds i))
    (bin_slice masked_psd inds i) duration

/-- The per-detector summary data `(a0, a1, b0, b1)` (line 306 stores the
tuple in that order). -/
structure SummaryQuad where
  a0 : List CQ
  a1 : List CQ
  b0 : List CQ
  b1 : List CQ
  deriving DecidableEq

/-- `compute_summary_data` for one interferometer (lines 261-306), given
the already-masked arrays.  The per-bin loop reads `masked_bin_inds[i]`
and `masked_bin_inds[i + 1]` for `i < number_of_bins`; when
`number_of_bins + 1` exceeds the number of located edges the Python list
subscript raises `IndexError` (relevant for claim C10: `number_of_bins`
is the *shared scalar*, not this detector's own edge count). -/
def compute_summary_data_det (bin_freqs masked_frequency_array : List ℚ)
    (masked_strain masked_h0 : List CQ) (masked_psd : List ℚ) (duration : ℚ)
    (number_of_bins : ℕ) : Except String SummaryQuad :=
  match masked_bin_inds_det bin_freqs masked_frequency_array with
  | .error e => .error e
  | .ok inds =>
      if number_of_bins = 0 ∨ number_of_bins < inds.length then
        .ok { a0 := (List.range number_of_bins).map
                (summary_a0 masked_strain masked_h0 masked_psd inds duration)
              a1 := (List.range number_of_bins).map
                (summary_a1 masked_frequency_array masked_strain masked_h0 masked_psd
                  inds duration)
              b0 := (List.range number_of_bins).map
                (summary_b0 masked_h0 masked_psd inds duration)
              b1 := (List.range number_of_bins).map
                (summary_b1 masked_frequency_array masked_h0 masked_psd inds duration) }
      else .error "IndexError: list index out of range"

/-- The statement of claim C3 at a given input, reading "the bin's
samples — the masked frequency samples delimited by edge indices `i` and
`i+1`" as the inclusive index range `[ind_i, ind_{i+1}]` (the grid points
of the closed bin interval), so that "the midpoint of the first and last
frequency sample in the bin" is `(f[ind_i] + f[ind_{i+1}]) / 2` exactly
as the source computes it. -/
def summary_claim_at (bin_freqs masked_frequency_array : List ℚ)
    (masked_strain masked_h0 : List CQ) (masked_psd : List ℚ) (duration : ℚ)
    (number_of_bins : ℕ) : Prop :=
  ∀ inds, masked_bin_inds_det bin_freqs masked_frequency_array = .ok inds →
  ∀ q, compute_summary_data_det bin_freqs masked_frequency_array masked_strain
      masked_h0 masked_psd duration number_of_bins = .ok q →
  ∀ i < number_of_bins,
    q.a0.getD i 0 = CQ.ofQ (4 / duration) *
        ∑ j in Finset.Icc (inds.getD i 0) (inds.getD (i + 1) 0),
          CQ.conj (masked_h0.getD j 0) * masked_strain.getD j 0
            / CQ.ofQ (masked_psd.getD j 0) ∧
    q.b0.getD i 0 = CQ.ofQ (4 / duration) *
        ∑ j in Finset.Icc (inds.getD i 0) (inds.getD (i + 1) 0),
          CQ.conj (masked_h0.getD j 0) * masked_h0.getD j 0
            / CQ.ofQ (masked_psd.getD j 0) ∧
    q.a1.getD i 0 = CQ.ofQ (4 / duration) *
        ∑ j in Finset.Icc (inds.getD i 0) (inds.getD (i + 1) 0),
          CQ.conj (masked_h0.getD j 0)
            * (masked_strain.getD j 0 * CQ.ofQ (masked_frequency_array.getD j 0
                - (masked_frequency_array.getD (inds.getD i 0) 0
                    + masked_frequency_array.getD (inds.getD (i + 1) 0) 0) / 2))
            / CQ.ofQ (masked_psd.getD j 0) ∧
    q.b1.getD i 0 = CQ.ofQ (4 / duration) *
        ∑ j in Finset.Icc (inds.getD i 0) (inds.getD (i + 1) 0),
          CQ.conj (masked_h0.getD j 0)
            * (masked_h0.getD j 0 * CQ.ofQ (masked_frequency_array.getD j 0
                - (masked_frequency_array.getD (inds.getD i 0) 0
                    + masked_frequency_array.getD (inds.getD (i + 1) 0) 0) / 2))
            / CQ.ofQ (masked_psd.getD j 0)

/-- **C3 is false as stated.**  One bin delimited by masked edge indices
`0` and `2` on the three-sample grid `[0, 1, 2]`, with unit data, unit
fiducial waveform, unit PSD and duration `4` (so `4/T = 1`): the source
sums over the half-open slice `[0:2]` — two samples — giving
`a0[0] = 2`, while the claim's sum over the bin's samples (indices 0, 1,
2 inclusive) gives `3`. -/
theorem C3_counterexample :
    ¬ summary_claim_at [0, 2] [0, 1, 2] [1, 1, 1] [1, 1, 1] [1, 1, 1] 4 1 := by
  intro h
  have hinds : masked_bin_inds_det [0, 2] [0, 1, 2] = .ok [0, 2] := by rfl
  have hcomp : compute_summary_data_det [0, 2] [0, 1, 2] [1, 1, 1] [1, 1, 1] [1, 1, 1] 4 1
      = .ok { a0 := (List.range 1).map (summary_a0 [1, 1, 1] [1, 1, 1] [1, 1, 1] [0, 2] 4)
              a1 := (List.range 1).map
                (summary_a1 [0, 1, 2] [1, 1, 1] [1, 1, 1] [1, 1, 1] [0, 2] 4)
              b0 := (List.range 1).map (summary_b0 [1, 1, 1] [1, 1, 1] [0, 2] 4)
              b1 := (List.range 1).map
                (summary_b1 [0, 1, 2] [1, 1, 1] [1, 1, 1] [0, 2] 4) } := by
    unfold compute_summary_data_det
    rw [hinds]
    norm_num
  have hval : summary_a0 [1, 1, 1] [1, 1, 1] [1, 1, 1] [0, 2] 4 0 = ⟨2, 0⟩ := by
    unfold summary_a0 bin_slice pySlice noise_weighted_inner_product
    norm_num [CQ.div_def, CQ.normSq, CQ.conj, CQ.ofQ, CQ.ext_iff]
  have hsum : CQ.ofQ (4 / 4) *
      (∑ j in Finset.Icc 0 2,
        CQ.conj (([1, 1, 1] : List CQ).getD j 0) * ([1, 1, 1] : List CQ).getD j 0
          / CQ.ofQ (([1, 1, 1] : List ℚ).getD j 0)) = ⟨3, 0⟩ := by
    rw [Finset.sum_Icc_succ_top (by norm_num), Finset.sum_Icc_succ_top (by norm_num),
      Finset.Icc_self, Finset.sum_singleton]
    norm_num [CQ.div_def, CQ.normSq, CQ.conj, CQ.ofQ, CQ.ext_iff]
  have h5 := (h [0, 2] hinds _ hcomp 0 (by norm_num)).1
  rw [show List.range 1 = [0] from rfl] at h5
  simp only [List.map_cons, List.map_nil, List.getD_cons_zero] at h5
  rw [hval] at h5
  simp only [List.getD_cons_zero, List.getD_cons_succ] at h5
  rw [hsum] at h5
  exact absurd h5 (by decide)

theorem nwip_slice_pair_eq (h0 X : List CQ) (P : List ℚ) (T : ℚ) (inds : List ℕ)
    (i L : ℕ) (hLh : h0.length = L) (hLX : X.length = L) (hLP : P.length = L)
    (hmono : inds.getD i 0 ≤ inds.getD (i + 1) 0) (hub : inds.getD (i + 1) 0 ≤ L) :
    noise_weighted_inner_product (bin_slice h0 inds i) (bin_slice X inds i)
        (bin_slice P inds i) T
      = CQ.ofQ (4 / T) * ∑ j in Finset.Ico (inds.getD i 0) (inds.getD (i + 1) 0),
          CQ.conj (h0.getD j 0) * X.getD j 0 / CQ.ofQ (P.getD j 0) := by
  unfold bin_slice
  rw [nwip_eq_sum _ _ _ _ (inds.getD (i + 1) 0 - inds.getD i 0)
      (by rw [pySlice_length, hLh]; omega)
      (by rw [pySlice_length, hLX]; omega)
      (by rw [pySlice_length, hLP]; omega)]
  congr 1
  rw [Finset.sum_Ico_eq_sum_range]
  refine Finset.sum_congr rfl fun k hk => ?_
  have hk' := Finset.mem_range.mp hk
  rw [pySlice_getD _ _ _ _ (by omega) 0, pySlice_getD _ _ _ _ (by omega) 0,
    pySlice_getD _ _ _ _ (by omega) 0]

theorem nwip_slice_offset_eq (h0 X : List CQ) (F P : List ℚ) (T : ℚ) (inds : List ℕ)
    (i L : ℕ) (hLh : h0.length = L) (hLX : X.length = L) (hLF : F.length = L)
    (hLP : P.length = L)
    (hmono : inds.getD i 0 ≤ inds.getD (i + 1) 0) (hub : inds.getD (i + 1) 0 ≤ L) :
    noise_weighted_inner_product (bin_slice h0 inds i)
        (List.zipWith (fun x f => x * CQ.ofQ (f - central_frequency F inds i))
          (bin_slice X inds i) (bin_slice F inds i))
        (bin_slice P inds i) T
      = CQ.ofQ (4 / T) * ∑ j in Finset.Ico (inds.getD i 0) (inds.getD (i + 1) 0),
          CQ.conj (h0.getD j 0) * (X.getD j 0 * CQ.ofQ (F.getD j 0
              - (F.getD (inds.getD i 0) 0 + F.getD (inds.getD (i + 1) 0) 0) / 2))
            / CQ.ofQ (P.getD j 0) := by
  unfold bin_slice
  rw [nwip_eq_sum _ _ _ _ (inds.getD (i + 1) 0 - inds.getD i 0)
      (by rw [pySlice_length, hLh]; omega)
      (by rw [List.length_zipWith, pySlice_length, pySlice_length, hLX, hLF]; omega)
      (by rw [pySlice_length, hLP]; omega)]
  congr 1
  rw [Finset.sum_Ico_eq_sum_range]
  refine Finset.sum_congr rfl fun k hk => ?_
  have hk' := Finset.mem_range.mp hk
  rw [getD_zipWith_of_lt _ _ _ k (by rw [pySlice_length, hLX]; omega)
        (by rw [pySlice_length, hLF]; omega) 0 0 0,
    pySlice_getD _ _ _ _ (by omega) 0, pySlice_getD _ _ _ _ (by omega) 0,
    pySlice_getD _ _ _ _ (by omega) 0, pySlice_getD _ _ _ _ (by omega) 0]
  simp only [central_frequency]

/-- **C3 (amended).** For every detector and every bin `i`,
`compute_summary_data` sets `a0[i], a1[i], b0[i], b1[i]` to the
noise-weighted inner products over the bin's samples — the masked samples
from edge index `i` *inclusive* to edge index `i+1` *exclusive* (Python
slice `[ind_i : ind_{i+1}]`) — of the fiducial waveform `h0` against,
respectively, the strain `d`, `h0` itself, `d·(f − fc)` and `h0·(f − fc)`,
where `fc = (f[ind_i] + f[ind_{i+1}]) / 2` is the midpoint of the
frequencies at the two edge indices (the upper one lying *outside* the
summed range), and the noise-weighted inner product is
`(4/T)·Σ conj(a)·b/p`. -/
theorem C3_summary_data_formulas (bin_freqs masked_frequency_array : List ℚ)
    (masked_strain masked_h0 : List CQ) (masked_psd : List ℚ) (duration : ℚ)
    (number_of_bins : ℕ) (inds : List ℕ) (q : SummaryQuad) (L : ℕ)
    (hinds : masked_bin_inds_det bin_freqs masked_frequency_array = .ok inds)
    (hq : compute_summary_data_det bin_freqs masked_frequency_array masked_strain
        masked_h0 masked_psd duration number_of_bins = .ok q)
    (hLf : masked_frequency_array.length = L) (hLs : masked_strain.length = L)
    (hLh : masked_h0.length = L) (hLp : masked_psd.length = L)
    (i : ℕ) (hi : i < number_of_bins)
    (hmono : inds.getD i 0 ≤ inds.getD (i + 1) 0)
    (hub : inds.getD (i + 1) 0 ≤ L) :
    q.a0.getD i 0 = CQ.ofQ (4 / duration) *
        ∑ j in Finset.Ico (inds.getD i 0) (inds.getD (i + 1) 0),
          CQ.conj (masked_h0.getD j 0) * masked_strain.getD j 0
            / CQ.ofQ (masked_psd.getD j 0) ∧
    q.a1.getD i 0 = CQ.ofQ (4 / duration) *
        ∑ j in Finset.Ico (inds.getD i 0) (inds.getD (i + 1) 0),
          CQ.conj (masked_h0.getD j 0)
            * (masked_strain.getD j 0 * CQ.ofQ (masked_frequency_array.getD j 0
                - (masked_frequency_array.getD (inds.getD i 0) 0
                    + masked_frequency_array.getD (inds.getD (i + 1) 0) 0) / 2))
            / CQ.ofQ (masked_psd.getD j 0) ∧
    q.b0.getD i 0 = CQ.ofQ (4 / duration) *
        ∑ j in Finset.Ico (inds.getD i 0) (inds.getD (i + 1) 0),
          CQ.conj (masked_h0.getD j 0) * masked_h0.getD j 0
            / CQ.ofQ (masked_psd.getD j 0) ∧
    q.b1.getD i 0 = CQ.ofQ (4 / duration) *
        ∑ j in Finset.Ico (inds.getD i 0) (inds.getD (i + 1) 0),
          CQ.conj (masked_h0.getD j 0)
            * (masked_h0.getD j 0 * CQ.ofQ (masked_frequency_array.getD j 0
                - (masked_frequency_array.getD (inds.getD i 0) 0
                    + masked_frequency_array.getD (inds.getD (i + 1) 0) 0) / 2))
            / CQ.ofQ (masked_psd.getD j 0) := by
  unfold compute_summary_data_det at hq
  rw [hinds] at hq
  simp only [] at hq
  by_cases hc : number_of_bins = 0 ∨ number_of_bins < inds.length
  · rw [if_pos hc] at hq
    injection hq with hq2
    subst hq2
    have hrange : ∀ f : ℕ → CQ, ((List.range number_of_bins).map f).getD i 0 = f i := by
      intro f
      rw [getD_map_of_lt _ _ i (by rw [List.length_range]; omega) 0 0,
        List.getD_eq_getElem _ _ (by rw [List.length_range]; omega), List.getElem_range]
    refine ⟨?_, ?_, ?_, ?_⟩
    · show ((List.range number_of_bins).map
          (summary_a0 masked_strain masked_h0 masked_psd inds duration)).getD i 0 = _
      rw [hrange]
      unfold summary_a0
      exact nwip_slice_pair_eq masked_h0 masked_strain masked_psd duration inds i L
        hLh hLs hLp hmono hub
    · show ((List.range number_of_bins).map
          (summary_a1 masked_frequency_array masked_strain masked_h0 masked_psd inds
            duration)).getD i 0 = _
      rw [hrange]
      unfold summary_a1
      exact nwip_slice_offset_eq masked_h0 masked_strain masked_frequency_array
        masked_psd duration inds i L hLh hLs hLf hLp hmono hub
    · show ((List.range number_of_bins).map
          (summary_b0 masked_h0 masked_psd inds duration)).getD i 0 = _
      rw [hrange]
      unfold summary_b0
      exact nwip_slice_pair_eq masked_h0 masked_h0 masked_psd duration inds i L
        hLh hLh hLp hmono hub
    · show ((List.range number_of_bins).map
          (summary_b1 masked_frequency_array masked_h0 masked_psd inds
            duration)).getD i 0 = _
      rw [hrange]
      unfold summary_b1
      exact nwip_slice_offset_eq masked_h0 masked_h0 masked_frequency_array
        masked_psd duration inds i L hLh hLh hLf hLp hmono hub
  · rw [if_neg hc] at hq
    exact absurd hq (by simp)

theorem C3_summary_data_formulas_witness :
    ({ a0 := (List.range 1).map (summary_a0 [1, 1, 1] [1, 1, 1] [1, 1, 1] [0, 2] 4)
       a1 := (List.range 1).map
          (summary_a1 [0, 1, 2] [1, 1, 1] [1, 1, 1] [1, 1, 1] [0, 2] 4)
       b0 := (List.range 1).map (summary_b0 [1, 1, 1] [1, 1, 1] [0, 2] 4)
       b1 := (List.range 1).map
          (summary_b1 [0, 1, 2] [1, 1, 1] [1, 1, 1] [0, 2] 4) } : SummaryQuad).a0.getD 0 0
      = CQ.ofQ (4 / 4) *
        ∑ j in Finset.Ico (([0, 2] : List ℕ).getD 0 0) (([0, 2] : List ℕ).getD 1 0),
          CQ.conj (([1, 1, 1] : List CQ).getD j 0) * ([1, 1, 1] : List CQ).getD j 0
            / CQ.ofQ (([1, 1, 1] : List ℚ).getD j 0) := by
  have hinds : masked_bin_inds_det [0, 2] [0, 1, 2] = .ok [0, 2] := by rfl
  have hcomp : compute_summary_data_det [0, 2] [0, 1, 2] [1, 1, 1] [1, 1, 1] [1, 1, 1] 4 1
      = .ok { a0 := (List.range 1).map (summary_a0 [1, 1, 1] [1, 1, 1] [1, 1, 1] [0, 2] 4)
              a1 := (List.range 1).map
                (summary_a1 [0, 1, 2] [1, 1, 1] [1, 1, 1] [1, 1, 1] [0, 2] 4)
              b0 := (List.range 1).map (summary_b0 [1, 1, 1] [1, 1, 1] [0, 2] 4)
              b1 := (List.range 1).map
                (summary_b1 [0, 1, 2] [1, 1, 1] [1, 1, 1] [0, 2] 4) } := by
    unfold compute_summary_data_det
    rw [hinds]
    norm_num
  exact (C3_summary_data_formulas [0, 2] [0, 1, 2] [1, 1, 1] [1, 1, 1] [1, 1, 1] 4 1
    [0, 2] _ 3 hinds hcomp rfl rfl rfl rfl 0 (by norm_num) (by decide) (by decide)).1

/-! ### FiducialWaveformManager (`set_fiducial_waveforms`, lines 194-216) -/

/-- Line 199: `np.where(self.fiducial_polarizations["plus"] != 0j)[0][-1]` —
the last index with nonzero "plus" polarization; the `[-1]` subscript on
an empty index array raises `IndexError`, modelled as `none`. -/
def maximum_nonzero_index (plus : List CQ) : Option ℕ :=
  ((List.range plus.length).filter (fun i => decide (plus.getD i 0 ≠ 0))).getLast?

/-- The possible returns of `set_fiducial_waveforms`: the numeric sentinel
`np.nan_to_num(-np.inf)` of line 205, or normal completion with the
(possibly clipped) per-detector maximum frequencies (lines 209-210) and
the per-detector responses (lines 212-214, the external
`get_detector_response` collaborator, passed in as data). -/
inductive SFWOutcome where
  | sentinel
  | normal (clipped_maximum_frequencies : List ℚ) (responses : List (List CQ))
  deriving DecidableEq

/-- `set_fiducial_waveforms` (lines 194-216).  Line 199 subscripts the
polarizations before the `is None` check of line 204, so a `None`
polarization dict raises `TypeError` there and the sentinel branch is
unreachable; an all-zero "plus" array makes the `np.where` index list
empty and line 199 raises `IndexError`. -/
def set_fiducial_waveforms (fiducial_polarizations : Option (List CQ))
    (frequency_array : List ℚ) (detector_max_frequencies : List ℚ)
    (responses : List (List CQ)) : Except String SFWOutcome :=
  match fiducial_polarizations with
  | none => .error "TypeError: NoneType object is not subscriptable"
  | some plus =>
      match maximum_nonzero_index plus with
      | none => .error "IndexError: index -1 is out of bounds for axis 0 with size 0"
      | some mni =>
          let maximum_nonzero_frequency := frequency_array.getD mni 0
          .ok (.normal
            (detector_max_frequencies.map (fun mf => min mf maximum_nonzero_frequency))
            responses)

/-- **C7.** If the fiducial polarizations are identically zero (no frequency
index has nonzero polarization content), `set_fiducial_waveforms` fails
with an error at construction (`IndexError` from the empty `np.where`
result at line 199) — it does not return the numeric sentinel of
line 205 and continue. -/
theorem C7_all_zero_fiducial_error (plus : List CQ)
    (frequency_array detector_max_frequencies : List ℚ) (responses : List (List CQ))
    (hz : ∀ z ∈ plus, z = 0) :
    set_fiducial_waveforms (some plus) frequency_array detector_max_frequencies responses
      = .error "IndexError: index -1 is out of bounds for axis 0 with size 0" ∧
    set_fiducial_waveforms (some plus) frequency_array detector_max_frequencies responses
      ≠ .ok SFWOutcome.sentinel := by
  have hmni : maximum_nonzero_index plus = none := by
    unfold maximum_nonzero_index
    have hfil : (List.range plus.length).filter (fun i => decide (plus.getD i 0 ≠ 0))
        = [] := by
      rw [List.filter_eq_nil_iff]
      intro i hi
      rw [List.mem_range] at hi
      have hzi := hz _ (getD_mem_of_lt plus i hi 0)
      simp only [decide_eq_true_eq]
      exact not_not_intro hzi
    rw [hfil]
    rfl
  have hmain : set_fiducial_waveforms (some plus) frequency_array
      detector_max_frequencies responses
      = .error "IndexError: index -1 is out of bounds for axis 0 with size 0" := by
    unfold set_fiducial_waveforms
    simp only []
    rw [hmni]
  exact ⟨hmain, by rw [hmain]; intro hc; exact absurd hc (by simp)⟩

theorem C7_all_zero_fiducial_error_witness :
    set_fiducial_waveforms (some [0, 0, 0]) [1, 2, 3] [3] [[1, 1, 1]]
      = .error "IndexError: index -1 is out of bounds for axis 0 with size 0" ∧
    set_fiducial_waveforms (some [0, 0, 0]) [1, 2, 3] [3] [[1, 1, 1]]
      ≠ .ok SFWOutcome.sentinel :=
  C7_all_zero_fiducial_error [0, 0, 0] [1, 2, 3] [3] [[1, 1, 1]] (by decide)

/-! ### FiducialOptimizer (`find_maximum_likelihood_parameters`,
relative.py lines 221-236)

The loop body (lines 226-232) calls the external minimizer, then
`set_fiducial_waveforms(updated_parameters)` and
`compute_summary_data()`; it never calls `setup_bins`.  The object state
those two methods write is modelled explicitly; the external
collaborators are parameters: `waveformFor` (waveform generation plus
detector projection, producing the per-detector fiducial waveforms from
a parameter value), `summarize` (the static strain/PSD/bin data closed
over, producing summary data from fiducial waveforms) and `optimizer`
(scipy's `differential_evolution` on the negative log-likelihood-ratio,
whose output may depend on the whole current state). -/

/-- The detector-keyed mutable state touched by the optimizer loop. -/
structure RBState where
  bin_freqs : List (List ℚ)
  bin_inds : List (List ℕ)
  bin_widths : List (List ℚ)
  bin_centers : List (List ℚ)
  per_detector_fiducial_waveforms : List (List CQ)
  summary_data : List SummaryQuad

/-- Line 231, `set_fiducial_waveforms(updated_parameters)` as a state
update: rewrites the fiducial waveforms, touches no `BinSet` field. -/
def set_fiducial_waveforms_upd {P : Type} (waveformFor : P → List (List CQ)) (p : P)
    (s : RBState) : RBState :=
  { s with per_detector_fiducial_waveforms := waveformFor p }

/-- Line 232, `compute_summary_data()` as a state update: recomputes the
summary data from the current fiducial waveforms. -/
def compute_summary_data_upd (summarize : List (List CQ) → List SummaryQuad)
    (s : RBState) : RBState :=
  { s with summary_data := summarize s.per_detector_fiducial_waveforms }

/-- One optimisation round (loop body, lines 226-232). -/
def fmlp_round {P : Type} (waveformFor : P → List (List CQ))
    (summarize : List (List CQ) → List SummaryQuad) (optimizer : RBState → P)
    (s : RBState) : RBState :=
  compute_summary_data_upd summarize
    (set_fiducial_waveforms_upd waveformFor (optimizer s) s)

/-- `find_maximum_likelihood_parameters` (lines 221-236): `iterations`
rounds, returning the final state and the last round's parameter set
(`none` when the loop body never ran — the Python function would raise
`NameError` returning the unbound `updated_parameters`). -/
def find_maximum_likelihood_parameters {P : Type} (waveformFor : P → List (List CQ))
    (summarize : List (List CQ) → List SummaryQuad) (optimizer : RBState → P) :
    ℕ → RBState → Option P → RBState × Option P
  | 0, s, last => (s, last)
  | k + 1, s, _ =>
      find_maximum_likelihood_parameters waveformFor summarize optimizer k
        (fmlp_round waveformFor summarize optimizer s) (some (optimizer s))

theorem fmlp_frame {P : Type} (waveformFor : P → List (List CQ))
    (summarize : List (List CQ) → List SummaryQuad) (optimizer : RBState → P) :
    ∀ (k : ℕ) (s : RBState) (last : Option P),
      (find_maximum_likelihood_parameters waveformFor summarize optimizer k s last).1.bin_freqs
          = s.bin_freqs ∧
      (find_maximum_likelihood_parameters waveformFor summarize optimizer k s last).1.bin_inds
          = s.bin_inds ∧
      (find_maximum_likelihood_parameters waveformFor summarize optimizer k s
          last).1.bin_widths = s.bin_widths ∧
      (find_maximum_likelihood_parameters waveformFor summarize optimizer k s
          last).1.bin_centers = s.bin_centers := by
  intro k
  induction k with
  | zero => intro s last; exact ⟨rfl, rfl, rfl, rfl⟩
  | succ k ih =>
      intro s last
      have h := ih (fmlp_round waveformFor summarize optimizer s) (some (optimizer s))
      exact ⟨h.1, h.2.1, h.2.2.1, h.2.2.2⟩

/-- **C9.** Every fiducial-optimization round rebuilds the fiducial
waveforms from the round's optimizer output and recomputes the summary
data from those rebuilt waveforms, while the `BinSet` state (`bin_freqs`,
`bin_inds`, `bin_widths`, `bin_centers` for every detector) remains
unchanged from its initial computation, over any number of iterations. -/
theorem C9_optimizer_frame {P : Type} (waveformFor : P → List (List CQ))
    (summarize : List (List CQ) → List SummaryQuad) (optimizer : RBState → P)
    (k : ℕ) (s : RBState) :
    ((find_maximum_likelihood_parameters waveformFor summarize optimizer k s
        none).1.bin_freqs = s.bin_freqs ∧
      (find_maximum_likelihood_parameters waveformFor summarize optimizer k s
        none).1.bin_inds = s.bin_inds ∧
      (find_maximum_likelihood_parameters waveformFor summarize optimizer k s
        none).1.bin_widths = s.bin_widths ∧
      (find_maximum_likelihood_parameters waveformFor summarize optimizer k s
        none).1.bin_centers = s.bin_centers) ∧
    ((fmlp_round waveformFor summarize optimizer s).per_detector_fiducial_waveforms
        = waveformFor (optimizer s) ∧
      (fmlp_round waveformFor summarize optimizer s).summary_data
        = summarize (waveformFor (optimizer s))) :=
  ⟨fmlp_frame waveformFor summarize optimizer k s none, rfl, rfl⟩

/-! ### The shared `number_of_bins` scalar (claim C10)

`setup_bins` loops over `self.interferometers` (line 160) assigning the
single scalar attribute `self.number_of_bins` (line 173) on every pass,
so after setup the scalar holds the count of the *last* interferometer;
`compute_summary_data` (lines 271-273) and `_compute_full_waveform`
(line 344) then use that scalar for every detector. -/

/-- `setup_bins` over the full interferometer list, threading the scalar
`self.number_of_bins` (second component); detectors are (fmin, fmax)
pairs sharing the waveform generator's `frequency_array`. -/
def setup_bins_all (frequency_array : List ℚ) (phi : ℚ → ℚ) (eps : ℚ) :
    List (ℚ × ℚ) → ℤ → Except String (List BinData × ℤ)
  | [], n => .ok ([], n)
  | d :: rest, _ =>
      match setup_bins_det frequency_array d.1 d.2 phi eps with
      | .error e => .error e
      | .ok bd =>
          match setup_bins_all frequency_array phi eps rest bd.number_of_bins with
          | .error e => .error e
          | .ok (l, nf) => .ok (bd :: l, nf)

/-- Field equations of a successful `setup_bins_det`. -/
theorem setup_bins_det_fields (frequency_array : List ℚ) (fmin fmax : ℚ)
    (phi : ℚ → ℚ) (eps : ℚ) (bd : BinData)
    (h : setup_bins_det frequency_array fmin fmax phi eps = .ok bd) :
    bd.number_of_bins = number_of_bins_det frequency_array fmin fmax phi eps ∧
    bd.bin_freqs = bin_freqs_det frequency_array fmin fmax phi eps ∧
    bd.bin_inds = bin_inds_det frequency_array fmin fmax phi eps ∧
    bd.bin_centers = List.zipWith (fun a b => (a + b) / 2)
      ((bin_freqs_det frequency_array fmin fmax phi eps).drop 1)
      (bin_freqs_det frequency_array fmin fmax phi eps).dropLast := by
  unfold setup_bins_det at h
  split at h
  · exact absurd h (by simp)
  · split at h
    · exact absurd h (by simp)
    · split at h
      · exact absurd h (by simp)
      · split at h
        · exact absurd h (by simp)
        · split at h
          · exact absurd h (by simp)
          · injection h with h2
            subst h2
            exact ⟨rfl, rfl, rfl, rfl⟩

/-- Structure of a successful `setup_bins_all` run: one `BinData` per
detector, each produced by `setup_bins_det`, and the final scalar equal
to the last detector's count. -/
theorem setup_bins_all_spec (frequency_array : List ℚ) (phi : ℚ → ℚ) (eps : ℚ) :
    ∀ (dets : List (ℚ × ℚ)) (n0 : ℤ) (bds : List BinData) (nf : ℤ),
      setup_bins_all frequency_array phi eps dets n0 = .ok (bds, nf) →
      bds.length = dets.length ∧
      (∀ d < dets.length,
        setup_bins_det frequency_array (dets.getD d (0, 0)).1 (dets.getD d (0, 0)).2
            phi eps = .ok (bds.getD d ⟨0, [], [], [], []⟩)) ∧
      (dets = [] → nf = n0 ∧ bds = []) ∧
      (dets ≠ [] → ∃ bdl, bds.getLast? = some bdl ∧ nf = bdl.number_of_bins) := by
  intro dets
  induction dets with
  | nil =>
      intro n0 bds nf h
      unfold setup_bins_all at h
      injection h with h2
      injection h2 with h3 h4
      subst h3
      subst h4
      exact ⟨rfl, by intro d hd; simp at hd, fun _ => ⟨rfl, rfl⟩, fun hc => absurd rfl hc⟩
  | cons d rest ih =>
      intro n0 bds nf h
      unfold setup_bins_all at h
      cases hdet : setup_bins_det frequency_array d.1 d.2 phi eps with
      | error e => rw [hdet] at h; exact absurd h (by simp)
      | ok bd =>
          rw [hdet] at h
          simp only [] at h
          cases hrec : setup_bins_all frequency_array phi eps rest bd.number_of_bins with
          | error e => rw [hrec] at h; exact absurd h (by simp)
          | ok p =>
              obtain ⟨l, nf'⟩ := p
              rw [hrec] at h
              simp only [] at h
              injection h with h2
              injection h2 with h3 h4
              subst h3
              subst h4
              obtain ⟨ihlen, ihdet, ihnil, ihne⟩ := ih bd.number_of_bins l nf' hrec
              refine ⟨by simpa using ihlen, ?_,
                by intro hc; exact absurd hc (by simp), ?_⟩
              · intro k hk
                cases k with
                | zero => simpa using hdet
                | succ k =>
                    have hk2 := ihdet k (by simpa using hk)
                    simpa using hk2
              · intro _
                cases l with
                | nil =>
                    have hrest : rest = [] :=
                      List.length_eq_zero.mp (by simpa using ihlen.symm)
                    obtain ⟨hnf, -⟩ := ihnil hrest
                    exact ⟨bd, by simp, hnf⟩
                | cons b bs =>
                    have hrestne : rest ≠ [] := by
                      intro hc
                      rw [hc] at ihlen
                      simp at ihlen
                    obtain ⟨bdl, hbdl, hnf⟩ := ihne hrestne
                    exact ⟨bdl, by rw [List.getLast?_cons_cons]; exact hbdl, hnf⟩

/-- The per-detector inputs of `compute_summary_data` (lines 262-270):
bin edges and masked arrays, plus the duration. -/
structure SummaryInput where
  bin_freqs : List ℚ
  masked_frequency_array : List ℚ
  masked_strain : List CQ
  masked_h0 : List CQ
  masked_psd : List ℚ
  duration : ℚ

/-- `compute_summary_data` over the full interferometer list, every
detector using the same shared scalar `number_of_bins` (lines 271-273). -/
def compute_summary_data_all (number_of_bins : ℤ) :
    List SummaryInput → Except String (List SummaryQuad)
  | [] => .ok []
  | si :: rest =>
      match compute_summary_data_det si.bin_freqs si.masked_frequency_array
          si.masked_strain si.masked_h0 si.masked_psd si.duration
          number_of_bins.toNat with
      | .error e => .error e
      | .ok q =>
          match compute_summary_data_all number_of_bins rest with
          | .error e => .error e
          | .ok l => .ok (q :: l)

/-- A successful `compute_summary_data_det` yields four arrays of length
exactly `number_of_bins` — the shared scalar, whatever the detector's own
edge count. -/
theorem compute_summary_data_det_lengths (bin_freqs masked_frequency_array : List ℚ)
    (masked_strain masked_h0 : List CQ) (masked_psd : List ℚ) (duration : ℚ)
    (number_of_bins : ℕ) (q : SummaryQuad)
    (hq : compute_summary_data_det bin_freqs masked_frequency_array masked_strain
        masked_h0 masked_psd duration number_of_bins = .ok q) :
    q.a0.length = number_of_bins ∧ q.a1.length = number_of_bins ∧
    q.b0.length = number_of_bins ∧ q.b1.length = number_of_bins := by
  unfold compute_summary_data_det at hq
  cases hmb : masked_bin_inds_det bin_freqs masked_frequency_array with
  | error e => rw [hmb] at hq; exact absurd hq (by simp)
  | ok inds =>
      rw [hmb] at hq
      simp only [] at hq
      by_cases hc : number_of_bins = 0 ∨ number_of_bins < inds.length
      · rw [if_pos hc] at hq
        injection hq with hq2
        subst hq2
        refine ⟨?_, ?_, ?_, ?_⟩ <;> simp [List.length_map, List.length_range]
      · rw [if_neg hc] at hq
        exact absurd hq (by simp)

theorem compute_summary_data_all_spec (number_of_bins : ℤ) :
    ∀ (sins : List SummaryInput) (quads : List SummaryQuad),
      compute_summary_data_all number_of_bins sins = .ok quads →
      quads.length = sins.length ∧
      ∀ q ∈ quads, q.a0.length = number_of_bins.toNat ∧
        q.a1.length = number_of_bins.toNat ∧ q.b0.length = number_of_bins.toNat ∧
        q.b1.length = number_of_bins.toNat := by
  intro sins
  induction sins with
  | nil =>
      intro quads h
      unfold compute_summary_data_all at h
      injection h with h2
      subst h2
      exact ⟨rfl, by intro q hq; simp at hq⟩
  | cons si rest ih =>
      intro quads h
      unfold compute_summary_data_all at h
      cases hdet : compute_summary_data_det si.bin_freqs si.masked_frequency_array
          si.masked_strain si.masked_h0 si.masked_psd si.duration
          number_of_bins.toNat with
      | error e => rw [hdet] at h; exact absurd h (by simp)
      | ok q =>
          rw [hdet] at h
          simp only [] at h
          cases hrec : compute_summary_data_all number_of_bins rest with
          | error e => rw [hrec] at h; exact absurd h (by simp)
          | ok l =>
              rw [hrec] at h
              injection h with h2
              subst h2
              obtain ⟨ihlen, ihq⟩ := ih l hrec
              refine ⟨by simpa using ihlen, ?_⟩
              intro q2 hq2
              rcases List.mem_cons.mp hq2 with hq2 | hq2
              · subst hq2
                exact compute_summary_data_det_lengths _ _ _ _ _ _ _ _ hdet
              · exact ihq q2 hq2

theorem getLast?_eq_getD {α : Type} (l : List α) (h : l ≠ []) (d : α) :
    l.getLast? = some (l.getD (l.length - 1) d) := by
  induction l generalizing d with
  | nil => exact absurd rfl h
  | cons a l ih =>
      cases l with
      | nil => rfl
      | cons b bs =>
          rw [List.getLast?_cons_cons, ih (List.cons_ne_nil b bs) d]
          simp only [List.length_cons, Nat.add_sub_cancel]
          rw [List.getD_cons_succ]

/-- Line 342-348 of `_compute_full_waveform`: numpy slice-assignment of the
scalar `v` into positions `[j, j')` of `arr`. -/
def fill_slice (arr : List CQ) (j j' : ℕ) (v : CQ) : List CQ :=
  arr.mapIdx (fun k x => if j ≤ k ∧ k < j' then v else x)

/-- `_compute_full_waveform` for one detector (lines 334-351).  The loop
`for i in range(self.number_of_bins)` (line 344) runs over the *shared
scalar*; it reads `bin_centers[i]`, `ind[i]`, `ind[i+1]`, `r0[i]`,
`r1[i]`, so a scalar exceeding this detector's own bin count raises
`IndexError`. -/
def _compute_full_waveform_det (number_of_bins : ℕ) (fiducial_waveform : List CQ)
    (r0 r1 : List CQ) (bin_inds : List ℕ) (bin_centers : List ℚ)
    (frequency_array : List ℚ) : Except String (List CQ) :=
  if number_of_bins = 0 ∨ (number_of_bins ≤ bin_centers.length
      ∧ number_of_bins < bin_inds.length ∧ number_of_bins ≤ r0.length
      ∧ number_of_bins ≤ r1.length) then
    let init : List CQ × List CQ × List CQ :=
      (List.replicate frequency_array.length 0,
       List.replicate frequency_array.length 0,
       List.replicate frequency_array.length 0)
    let dup := (List.range number_of_bins).foldl
      (fun acc i =>
        (fill_slice acc.1 (bin_inds.getD i 0) (bin_inds.getD (i + 1) 0) (r0.getD i 0),
         fill_slice acc.2.1 (bin_inds.getD i 0) (bin_inds.getD (i + 1) 0) (r1.getD i 0),
         fill_slice acc.2.2 (bin_inds.getD i 0) (bin_inds.getD (i + 1) 0)
           (CQ.ofQ (bin_centers.getD i 0))))
      init
    .ok (List.zipWith (fun h r => h * r) fiducial_waveform
      (List.zipWith (fun x y => x + y) dup.1
        (List.zipWith (fun r1v fm => r1v * fm) dup.2.1
          (List.zipWith (fun f fm => CQ.ofQ f - fm) frequency_array dup.2.2))))
  else .error "IndexError: list index out of range"

/-- **C10.** The bin count is one scalar attribute that `setup_bins`
overwrites inside its per-detector loop: after setup it equals the
*last* interferometer's count; `compute_summary_data` then builds, for
every detector, arrays of length equal to that scalar;
`_compute_full_waveform`'s reconstruction loop also runs over the scalar
and fails for a detector whose own bin count is smaller; and the
one-to-one correspondence between each detector's own `BinSet` length
and its `SummaryData` length holds precisely when all detectors yield
the same bin count as the last one. -/
theorem C10_shared_scalar (frequency_array : List ℚ) (phi : ℚ → ℚ) (eps : ℚ)
    (dets : List (ℚ × ℚ)) (bds : List BinData) (scalar : ℤ)
    (sins : List SummaryInput) (quads : List SummaryQuad)
    (hsetup : setup_bins_all frequency_array phi eps dets 0 = .ok (bds, scalar))
    (hdne : dets ≠ [])
    (hpos : ∀ d < dets.length, 1 ≤ (bds.getD d ⟨0, [], [], [], []⟩).number_of_bins)
    (hquads : compute_summary_data_all scalar sins = .ok quads)
    (hsl : sins.length = dets.length) :
    (∃ bdl, bds.getLast? = some bdl ∧ scalar = bdl.number_of_bins) ∧
    (∀ q ∈ quads, q.a0.length = scalar.toNat ∧ q.a1.length = scalar.toNat ∧
      q.b0.length = scalar.toNat ∧ q.b1.length = scalar.toNat) ∧
    ((∀ d < dets.length, (bds.getD d ⟨0, [], [], [], []⟩).bin_freqs.length
        = (quads.getD d ⟨[], [], [], []⟩).a0.length + 1)
      ↔ (∀ d < dets.length,
          (bds.getD d ⟨0, [], [], [], []⟩).number_of_bins = scalar)) ∧
    (∀ d < dets.length,
      (bds.getD d ⟨0, [], [], [], []⟩).number_of_bins < scalar →
      ∀ fid r0 r1, _compute_full_waveform_det scalar.toNat fid r0 r1
          (bds.getD d ⟨0, [], [], [], []⟩).bin_inds
          (bds.getD d ⟨0, [], [], [], []⟩).bin_centers frequency_array
        = .error "IndexError: list index out of range") := by
  obtain ⟨hblen, hdets, -, hne⟩ :=
    setup_bins_all_spec frequency_array phi eps dets 0 bds scalar hsetup
  obtain ⟨bdl, hlast, hscalar⟩ := hne hdne
  have hbdsne : bds ≠ [] := by
    intro hc
    rw [hc] at hblen
    exact hdne (List.length_eq_zero.mp hblen.symm)
  have hbdl_getD : bdl = bds.getD (bds.length - 1) ⟨0, [], [], [], []⟩ := by
    have := getLast?_eq_getD bds hbdsne ⟨0, [], [], [], []⟩
    rw [this] at hlast
    exact (Option.some.inj hlast).symm
  have hlp : 0 < bds.length := List.length_pos.mpr hbdsne
  have hscalar1 : 1 ≤ scalar := by
    rw [hscalar, hbdl_getD]
    exact hpos (bds.length - 1) (by omega)
  have hqlen : quads.length = dets.length := by
    rw [(compute_summary_data_all_spec scalar sins quads hquads).1, hsl]
  have hfacts : ∀ d < dets.length,
      (bds.getD d ⟨0, [], [], [], []⟩).bin_freqs.length
        = ((bds.getD d ⟨0, [], [], [], []⟩).number_of_bins + 1).toNat ∧
      (quads.getD d ⟨[], [], [], []⟩).a0.length = scalar.toNat ∧
      (bds.getD d ⟨0, [], [], [], []⟩).bin_centers.length
        = ((bds.getD d ⟨0, [], [], [], []⟩).number_of_bins + 1).toNat - 1 := by
    intro d hd
    obtain ⟨hf1, hf2, -, hf4⟩ := setup_bins_det_fields _ _ _ _ _ _ (hdets d hd)
    refine ⟨?_, ?_, ?_⟩
    · rw [hf2]
      unfold bin_freqs_det
      rw [List.length_map, List.length_range, hf1]
    · have hdq : d < quads.length := by omega
      exact ((compute_summary_data_all_spec scalar sins quads hquads).2 _
        (getD_mem_of_lt quads d hdq ⟨[], [], [], []⟩)).1
    · rw [hf4, List.length_zipWith, List.length_drop, List.length_dropLast]
      unfold bin_freqs_det
      rw [List.length_map, List.length_range, hf1, Nat.min_self]
  refine ⟨⟨bdl, hlast, hscalar⟩,
    (compute_summary_data_all_spec scalar sins quads hquads).2, ?_, ?_⟩
  · constructor
    · intro H d hd
      have h1 := H d hd
      have h2 := hfacts d hd
      have h3 := hpos d hd
      rw [h2.1, h2.2.1] at h1
      omega
    · intro H d hd
      have h1 := H d hd
      have h2 := hfacts d hd
      have h3 := hpos d hd
      rw [h2.1, h2.2.1, h1]
      omega
  · intro d hd hlt fid r0 r1
    have h2 := hfacts d hd
    have h3 := hpos d hd
    unfold _compute_full_waveform_det
    rw [if_neg]
    push_neg
    constructor
    · omega
    · intro hcen
      rw [h2.2.2] at hcen
      omega

theorem C10_shared_scalar_witness :
    (∃ bdl, ([{ number_of_bins := number_of_bins_det [1, 2, 3, 4] 1 4 (fun q => q) (7/5)
                bin_freqs := bin_freqs_det [1, 2, 3, 4] 1 4 (fun q => q) (7/5)
                bin_inds := bin_inds_det [1, 2, 3, 4] 1 4 (fun q => q) (7/5)
                bin_widths := List.zipWith (fun a b => a - b)
                  ((bin_freqs_det [1, 2, 3, 4] 1 4 (fun q => q) (7/5)).drop 1)
                  (bin_freqs_det [1, 2, 3, 4] 1 4 (fun q => q) (7/5)).dropLast
                bin_centers := List.zipWith (fun a b => (a + b) / 2)
                  ((bin_freqs_det [1, 2, 3, 4] 1 4 (fun q => q) (7/5)).drop 1)
                  (bin_freqs_det [1, 2, 3, 4] 1 4 (fun q => q) (7/5)).dropLast }]
        : List BinData).getLast? = some bdl ∧ (2 : ℤ) = bdl.number_of_bins) ∧
    (∀ q ∈ [({ a0 := (List.range 2).map
                  (summary_a0 [1, 1, 1, 1] [1, 1, 1, 1] [1, 1, 1, 1] [0, 2, 3] 4)
               a1 := (List.range 2).map
                  (summary_a1 [1, 2, 3, 4] [1, 1, 1, 1] [1, 1, 1, 1] [1, 1, 1, 1]
                    [0, 2, 3] 4)
               b0 := (List.range 2).map (summary_b0 [1, 1, 1, 1] [1, 1, 1, 1] [0, 2, 3] 4)
               b1 := (List.range 2).map
                  (summary_b1 [1, 2, 3, 4] [1, 1, 1, 1] [1, 1, 1, 1] [0, 2, 3] 4) }
            : SummaryQuad)],
      q.a0.length = (2 : ℤ).toNat ∧ q.a1.length = (2 : ℤ).toNat ∧
      q.b0.length = (2 : ℤ).toNat ∧ q.b1.length = (2 : ℤ).toNat) := by
  have h1 : frequency_array_useful [1, 2, 3, 4] 1 4 = [1, 2, 3, 4] := rfl
  have hdFS : d_phi_from_start [1, 2, 3, 4] 1 4 (fun q => q) = [0, 1, 2, 3] := by
    unfold d_phi_from_start d_phi_list
    rw [h1]
    norm_num
  have h2 : total_phase_dev [1, 2, 3, 4] 1 4 (fun q => q) = 3 := by
    unfold total_phase_dev
    rw [hdFS]
    rfl
  have hN2 : number_of_bins_det [1, 2, 3, 4] 1 4 (fun q => q) (7/5) = 2 := by
    unfold number_of_bins_det
    rw [h2]
    norm_num
  have hlk0 : bin_edge_lookup [1, 2, 3, 4] 1 4 (fun q => q) (7/5) 0 = some 0 := by
    unfold bin_edge_lookup
    rw [hdFS, hN2, h2]
    norm_num [firstIdx]
  have hlk1 : bin_edge_lookup [1, 2, 3, 4] 1 4 (fun q => q) (7/5) 1 = some 2 := by
    unfold bin_edge_lookup
    rw [hdFS, hN2, h2]
    norm_num [firstIdx]
  have hlk2 : bin_edge_lookup [1, 2, 3, 4] 1 4 (fun q => q) (7/5) 2 = some 3 := by
    unfold bin_edge_lookup
    rw [hdFS, hN2, h2]
    norm_num [firstIdx]
  have hbf : bin_freqs_det [1, 2, 3, 4] 1 4 (fun q => q) (7/5) = [1, 3, 4] := by
    unfold bin_freqs_det
    rw [hN2, show ((2 : ℤ) + 1).toNat = 3 from rfl,
      show List.range 3 = [0, 1, 2] from rfl,
      List.map_cons, List.map_cons, List.map_cons, List.map_nil, hlk0, hlk1, hlk2]
    rfl
  have hdetok := setup_bins_det_ok [1, 2, 3, 4] 1 4 (fun q => q) (7/5)
    (by rw [h1]; decide) (by rw [h2]; norm_num) (by rw [hN2]; norm_num)
  have hsetup : setup_bins_all [1, 2, 3, 4] (fun q => q) (7/5) [(1, 4)] 0
      = .ok ([{ number_of_bins := number_of_bins_det [1, 2, 3, 4] 1 4 (fun q => q) (7/5)
                bin_freqs := bin_freqs_det [1, 2, 3, 4] 1 4 (fun q => q) (7/5)
                bin_inds := bin_inds_det [1, 2, 3, 4] 1 4 (fun q => q) (7/5)
                bin_widths := List.zipWith (fun a b => a - b)
                  ((bin_freqs_det [1, 2, 3, 4] 1 4 (fun q => q) (7/5)).drop 1)
                  (bin_freqs_det [1, 2, 3, 4] 1 4 (fun q => q) (7/5)).dropLast
                bin_centers := List.zipWith (fun a b => (a + b) / 2)
                  ((bin_freqs_det [1, 2, 3, 4] 1 4 (fun q => q) (7/5)).drop 1)
                  (bin_freqs_det [1, 2, 3, 4] 1 4 (fun q => q) (7/5)).dropLast }], 2) := by
    unfold setup_bins_all
    rw [hdetok]
    simp only []
    unfold setup_bins_all
    simp only []
    rw [hN2]
  have hmbi : masked_bin_inds_det (bin_freqs_det [1, 2, 3, 4] 1 4 (fun q => q) (7/5))
      [1, 2, 3, 4] = .ok [0, 2, 3] := by
    rw [hbf]
    rfl
  have hdet2 : compute_summary_data_det
      (bin_freqs_det [1, 2, 3, 4] 1 4 (fun q => q) (7/5)) [1, 2, 3, 4]
      [1, 1, 1, 1] [1, 1, 1, 1] [1, 1, 1, 1] 4 (2 : ℤ).toNat
      = .ok { a0 := (List.range 2).map
                  (summary_a0 [1, 1, 1, 1] [1, 1, 1, 1] [1, 1, 1, 1] [0, 2, 3] 4)
              a1 := (List.range 2).map
                  (summary_a1 [1, 2, 3, 4] [1, 1, 1, 1] [1, 1, 1, 1] [1, 1, 1, 1]
                    [0, 2, 3] 4)
              b0 := (List.range 2).map (summary_b0 [1, 1, 1, 1] [1, 1, 1, 1] [0, 2, 3] 4)
              b1 := (List.range 2).map
                  (summary_b1 [1, 2, 3, 4] [1, 1, 1, 1] [1, 1, 1, 1] [0, 2, 3] 4) } := by
    unfold compute_summary_data_det
    rw [hmbi]
    norm_num
    exact ⟨rfl, rfl, rfl, rfl⟩
  have hquads : compute_summary_data_all 2
      [{ bin_freqs := bin_freqs_det [1, 2, 3, 4] 1 4 (fun q => q) (7/5)
         masked_frequency_array := [1, 2, 3, 4]
         masked_strain := [1, 1, 1, 1]
         masked_h0 := [1, 1, 1, 1]
         masked_psd := [1, 1, 1, 1]
         duration := 4 }]
      = .ok [{ a0 := (List.range 2).map
                  (summary_a0 [1, 1, 1, 1] [1, 1, 1, 1] [1, 1, 1, 1] [0, 2, 3] 4)
               a1 := (List.range 2).map
                  (summary_a1 [1, 2, 3, 4] [1, 1, 1, 1] [1, 1, 1, 1] [1, 1, 1, 1]
                    [0, 2, 3] 4)
               b0 := (List.range 2).map (summary_b0 [1, 1, 1, 1] [1, 1, 1, 1] [0, 2, 3] 4)
               b1 := (List.range 2).map
                  (summary_b1 [1, 2, 3, 4] [1, 1, 1, 1] [1, 1, 1, 1] [0, 2, 3] 4) }] := by
    unfold compute_summary_data_all
    rw [hdet2]
    simp only []
    unfold compute_summary_data_all
    simp only []
  have hpos : ∀ d < ([(1, 4)] : List (ℚ × ℚ)).length,
      1 ≤ (([{ number_of_bins := number_of_bins_det [1, 2, 3, 4] 1 4 (fun q => q) (7/5)
               bin_freqs := bin_freqs_det [1, 2, 3, 4] 1 4 (fun q => q) (7/5)
               bin_inds := bin_inds_det [1, 2, 3, 4] 1 4 (fun q => q) (7/5)
               bin_widths := List.zipWith (fun a b => a - b)
                 ((bin_freqs_det [1, 2, 3, 4] 1 4 (fun q => q) (7/5)).drop 1)
                 (bin_freqs_det [1, 2, 3, 4] 1 4 (fun q => q) (7/5)).dropLast
               bin_centers := List.zipWith (fun a b => (a + b) / 2)
                 ((bin_freqs_det [1, 2, 3, 4] 1 4 (fun q => q) (7/5)).drop 1)
                 (bin_freqs_det [1, 2, 3, 4] 1 4 (fun q => q) (7/5)).dropLast }]
          : List BinData).getD d ⟨0, [], [], [], []⟩).number_of_bins := by
    intro d hd
    have hd0 : d = 0 := by simpa using hd
    subst hd0
    show (1 : ℤ) ≤ number_of_bins_det [1, 2, 3, 4] 1 4 (fun q => q) (7/5)
    rw [hN2]
    norm_num
  have H := C10_shared_scalar [1, 2, 3, 4] (fun q => q) (7/5) [(1, 4)] _ 2 _ _
    hsetup (by simp) hpos hquads rfl
  exact ⟨H.1, H.2.1⟩
